import Mathlib

/-!
Verification development for the OsmosisSimulator pool engine
(`pair.py`, `tick.py`, `position.py`).

The Python engine is shallowly embedded as follows.

* Python numbers (floats and ints mixed by the source) are modelled as
  exact rationals `ℚ`; `int(...)` truncation is `pyInt`, Python's
  banker-rounding `round` is `pyRound`, and a division by zero is an
  explicit `Err.zeroDivision` outcome.
* Python objects (`Tick`, `Position`) are mutable heap cells: the pool's
  dictionaries store natural-number references into a `Heap`, exactly as
  the CPython dictionaries store object references.  `Pair.__dict__` is
  the record `Pair`; `revert_swap` (which does `__dict__.update` of a
  shallow `__dict__.copy()`) therefore restores the `Pair` record but not
  the heap cells, mirroring the aliasing semantics of the source.
* `tick_to_sqrt_price t` returns the irrational `√P(t)`; the embedding
  keeps the exact price map `tickToPrice` (the value computed in lines
  505-521 of `pair.py` before the final square root) and passes the
  sqrt-price map itself as a parameter `sqrtFn : Int → ℚ` wherever the
  engine consumes only the first component of `tick_to_sqrt_price`.
  Concrete scenarios use ticks whose price is a perfect square of a
  rational, where the Python float computation is also exact.
* `sqrt_price_to_tick` squares its argument back (line 524), so in exact
  arithmetic the composition of the two codecs is `priceToTick ∘
  tickToPrice`; `priceToTick` embeds lines 525-553.
* Exceptions are the `Err` values; an operation returns `PRes α ×
  Machine`, the machine component being the (possibly partially mutated)
  state in which the exception leaves the object, as in Python.
  Loops take fuel; `PRes.out` marks fuel exhaustion and is never a
  statement about the program.
-/

/-- Python exceptions surfaced by the engine. -/
inductive Err : Type where
  | keyError : Err
  | indexError : Err
  | zeroDivision : Err
  | insufficientLiquidity : Err
  | slippageTooHigh : Err
  deriving DecidableEq

/-- Result of running an embedded operation: a normal value, a raised
exception, or fuel exhaustion of the model (never a program behaviour). -/
inductive PRes (α : Type) : Type where
  | ok : α → PRes α
  | exc : Err → PRes α
  | out : PRes α
  deriving DecidableEq

/-- Truth of an `isOk` test on a result. -/
def PRes.isOk {α : Type} : PRes α → Bool
  | .ok _ => true
  | _ => false

/-- Python `int(q)`: truncation toward zero. -/
def pyInt (q : ℚ) : Int := if 0 ≤ q then ⌊q⌋ else -⌊-q⌋

/-- Python 3 `round(q)`: round half to even. -/
def pyRound (q : ℚ) : Int :=
  let n := ⌊q⌋
  if q - n < 1/2 then n
  else if 1/2 < q - n then n + 1
  else if n % 2 = 0 then n else n + 1

theorem pyInt_intCast (n : Int) : pyInt (n : ℚ) = n := by
  unfold pyInt
  rcases le_or_lt 0 (n : ℚ) with h | h
  · simp [h]
  · rw [if_neg (not_le.mpr h)]
    rw [show (-(n:ℚ)) = ((-n : Int) : ℚ) by push_cast; ring, Int.floor_intCast]
    omega

theorem pyRound_intCast (n : Int) : pyRound (n : ℚ) = n := by
  unfold pyRound
  rw [Int.floor_intCast]
  norm_num

theorem pyInt_nonneg {q : ℚ} (h : 0 ≤ q) : 0 ≤ pyInt q := by
  unfold pyInt
  rw [if_pos h]
  exact Int.floor_nonneg.mpr h

/-- Association-list model of a Python `dict` (value type `ν`, key `κ`).
Python dicts keep the position of an updated key and append new keys. -/
def dget {κ ν : Type} [DecidableEq κ] : List (κ × ν) → κ → Option ν
  | [], _ => none
  | (a, b) :: t, k => if a = k then some b else dget t k

/-- Dict update: overwrite in place or append at the end. -/
def dset {κ ν : Type} [DecidableEq κ] : List (κ × ν) → κ → ν → List (κ × ν)
  | [], k, v => [(k, v)]
  | (a, b) :: t, k, v => if a = k then (a, v) :: t else (a, b) :: dset t k v

/-- Dict deletion of the (first) entry with the given key. -/
def ddel {κ ν : Type} [DecidableEq κ] : List (κ × ν) → κ → List (κ × ν)
  | [], _ => []
  | (a, b) :: t, k => if a = k then t else (a, b) :: ddel t k

/-- Keys of a dict, in storage order. -/
def dkeys {κ ν : Type} : List (κ × ν) → List κ := List.map Prod.fst

theorem dget_isSome_iff_mem {κ ν : Type} [DecidableEq κ] (l : List (κ × ν)) (k : κ) :
    (dget l k).isSome = true ↔ k ∈ dkeys l := by
  induction l with
  | nil => simp [dget, dkeys]
  | cons p t ih =>
    obtain ⟨a, b⟩ := p
    by_cases h : a = k
    · subst h
      simp [dget, dkeys]
    · simp only [dget, if_neg h, dkeys, List.map_cons, List.mem_cons, ih]
      constructor
      · exact fun hm => Or.inr hm
      · rintro (rfl | hm)
        · exact absurd rfl h
        · exact hm

theorem mem_dkeys_of_dget_some {κ ν : Type} [DecidableEq κ] {l : List (κ × ν)} {k : κ}
    {v : ν} (h : dget l k = some v) : k ∈ dkeys l := by
  rw [← dget_isSome_iff_mem, h]
  rfl

theorem dget_dset_self {κ ν : Type} [DecidableEq κ] (l : List (κ × ν)) (k : κ) (v : ν) :
    dget (dset l k v) k = some v := by
  induction l with
  | nil => simp [dget, dset]
  | cons p t ih =>
    obtain ⟨a, b⟩ := p
    by_cases h : a = k
    · simp [dset, dget, h]
    · simp [dset, dget, h, ih]

theorem dget_dset_ne {κ ν : Type} [DecidableEq κ] (l : List (κ × ν)) {k k' : κ} (v : ν)
    (h : k' ≠ k) : dget (dset l k v) k' = dget l k' := by
  induction l with
  | nil => simp [dget, dset, Ne.symm h]
  | cons p t ih =>
    obtain ⟨a, b⟩ := p
    by_cases ha : a = k
    · subst ha
      simp [dset, dget, Ne.symm h]
    · by_cases ha' : a = k'
      · subst ha'
        simp [dset, dget, ha]
      · simp [dset, dget, ha, ha', ih]

theorem mem_dkeys_dset {κ ν : Type} [DecidableEq κ] (l : List (κ × ν)) (k k' : κ) (v : ν) :
    k' ∈ dkeys (dset l k v) ↔ k' = k ∨ k' ∈ dkeys l := by
  induction l with
  | nil => simp [dset, dkeys]
  | cons p t ih =>
    obtain ⟨a, b⟩ := p
    by_cases h : a = k
    · subst h
      simp [dset, dkeys]
    · simp only [dset, if_neg h, dkeys, List.map_cons, List.mem_cons]
      rw [show List.map Prod.fst (dset t k v) = dkeys (dset t k v) from rfl, ih]
      tauto

theorem mem_dkeys_ddel {κ ν : Type} [DecidableEq κ] {l : List (κ × ν)} {k k' : κ}
    (h : k' ∈ dkeys (ddel l k)) : k' ∈ dkeys l := by
  induction l with
  | nil => simp [ddel, dkeys] at h
  | cons p t ih =>
    obtain ⟨a, b⟩ := p
    by_cases ha : a = k
    · subst ha
      simp only [ddel, if_pos rfl] at h
      exact List.mem_cons_of_mem _ h
    · simp only [ddel, if_neg ha, dkeys, List.map_cons, List.mem_cons] at h ⊢
      rcases h with rfl | h
      · exact Or.inl rfl
      · exact Or.inr (ih h)

theorem dget_ddel_ne {κ ν : Type} [DecidableEq κ] (l : List (κ × ν)) {k k' : κ}
    (h : k' ≠ k) : dget (ddel l k) k' = dget l k' := by
  induction l with
  | nil => simp [ddel]
  | cons p t ih =>
    obtain ⟨a, b⟩ := p
    by_cases ha : a = k
    · subst ha
      simp [ddel, dget, Ne.symm h]
    · by_cases ha' : a = k'
      · subst ha'
        simp [ddel, dget, ha]
      · simp [ddel, dget, ha, ha', ih]

/-- Insertion of a keyed entry into a key-sorted association list; used to
model `sort_tick_map` (pair.py line 228), which rebuilds the tick dict in
ascending key order. -/
def insortTick {ν : Type} : (Int × ν) → List (Int × ν) → List (Int × ν)
  | x, [] => [x]
  | x, y :: t => if x.1 ≤ y.1 then x :: y :: t else y :: insortTick x t

/-- Sorting of the tick dict by key (`dict(sorted(self.ticks.items()))`). -/
def sortTicks {ν : Type} : List (Int × ν) → List (Int × ν)
  | [] => []
  | x :: t => insortTick x (sortTicks t)

theorem insortTick_perm {ν : Type} (x : Int × ν) (l : List (Int × ν)) :
    List.Perm (insortTick x l) (x :: l) := by
  induction l with
  | nil => rfl
  | cons y t ih =>
    by_cases h : x.1 ≤ y.1
    · simp [insortTick, h]
    · simp only [insortTick, if_neg h]
      exact (List.Perm.cons y ih).trans (List.Perm.swap x y t)

theorem sortTicks_perm {ν : Type} (l : List (Int × ν)) : List.Perm (sortTicks l) l := by
  induction l with
  | nil => rfl
  | cons x t ih =>
    exact (insortTick_perm x (sortTicks t)).trans (List.Perm.cons x ih)

theorem dkeys_sortTicks_mem {ν : Type} (l : List (Int × ν)) (k : Int) :
    k ∈ dkeys (sortTicks l) ↔ k ∈ dkeys l := by
  unfold dkeys
  exact ((sortTicks_perm l).map Prod.fst).mem_iff

theorem dget_eq_of_perm {κ ν : Type} [DecidableEq κ] {l l' : List (κ × ν)}
    (hp : List.Perm l l') (hn : (dkeys l).Nodup) (k : κ) : dget l k = dget l' k := by
  induction hp with
  | nil => rfl
  | cons x _ ih =>
    obtain ⟨a, b⟩ := x
    by_cases h : a = k
    · simp [dget, h]
    · simp only [dget, if_neg h]
      simp only [dkeys, List.map_cons, List.nodup_cons] at hn
      exact ih hn.2
  | swap x y l =>
    obtain ⟨a, b⟩ := x
    obtain ⟨c, d⟩ := y
    simp only [dkeys, List.map_cons, List.nodup_cons, List.mem_cons] at hn
    by_cases hc : c = k
    · subst hc
      have hac : ¬a = c := fun h => hn.1 (Or.inl h.symm)
      simp [dget, hac]
    · by_cases ha : a = k
      · simp [dget, ha, hc]
      · simp [dget, ha, hc]
  | trans h1 _ ih1 ih2 =>
    refine (ih1 hn).trans (ih2 ?_)
    have hq : List.Perm (dkeys _) (dkeys _) := h1.map Prod.fst
    exact hq.nodup_iff.mp hn

theorem nodup_dkeys_sortTicks {ν : Type} (l : List (Int × ν)) (hn : (dkeys l).Nodup) :
    (dkeys (sortTicks l)).Nodup :=
  (((sortTicks_perm l).map Prod.fst).nodup_iff).mpr hn

theorem dget_sortTicks {ν : Type} (l : List (Int × ν)) (hn : (dkeys l).Nodup) (k : Int) :
    dget (sortTicks l) k = dget l k :=
  dget_eq_of_perm (sortTicks_perm l) (nodup_dkeys_sortTicks l hn) k

theorem nodup_dkeys_dset {κ ν : Type} [DecidableEq κ] (l : List (κ × ν)) (k : κ) (v : ν)
    (hn : (dkeys l).Nodup) : (dkeys (dset l k v)).Nodup := by
  induction l with
  | nil => simp [dset, dkeys]
  | cons p t ih =>
    obtain ⟨a, b⟩ := p
    simp only [dkeys, List.map_cons, List.nodup_cons] at hn
    by_cases h : a = k
    · subst h
      simpa [dset, dkeys] using hn
    · simp only [dset, if_neg h, dkeys, List.map_cons, List.nodup_cons]
      refine ⟨fun hm => ?_, ih hn.2⟩
      rcases (mem_dkeys_dset t k a v).mp hm with rfl | hm2
      · exact h rfl
      · exact hn.1 hm2

theorem nodup_dkeys_ddel {κ ν : Type} [DecidableEq κ] (l : List (κ × ν)) (k : κ)
    (hn : (dkeys l).Nodup) : (dkeys (ddel l k)).Nodup := by
  induction l with
  | nil => simp [ddel, dkeys]
  | cons p t ih =>
    obtain ⟨a, b⟩ := p
    simp only [dkeys, List.map_cons, List.nodup_cons] at hn
    by_cases h : a = k
    · simpa [ddel, h] using hn.2
    · simp only [ddel, if_neg h, dkeys, List.map_cons, List.nodup_cons]
      exact ⟨fun hm => hn.1 (mem_dkeys_ddel hm), ih hn.2⟩

/-- In-place update of the cell with reference `r` in a heap cell list. -/
def hmod {α : Type} : List (Nat × α) → Nat → (α → α) → List (Nat × α)
  | [], _, _ => []
  | (a, b) :: t, r, f => if a = r then (a, f b) :: hmod t r f else (a, b) :: hmod t r f

/-- Heap of mutable Python objects: cells addressed by allocation order.
References held by the pool dicts survive `revert_swap`, exactly like
CPython object references survive a shallow copy of `__dict__`. -/
structure Heap (α : Type) : Type where
  nxt : Nat
  cells : List (Nat × α)
  deriving DecidableEq

/-- Allocation of a fresh cell; returns the reference. -/
def Heap.alloc {α : Type} (h : Heap α) (v : α) : Nat × Heap α :=
  (h.nxt, ⟨h.nxt + 1, (h.nxt, v) :: h.cells⟩)

/-- Dereference with a default (references produced by `alloc` and stored
in the pool dicts are never dangling, so the default is never observed). -/
def Heap.getD {α : Type} [Inhabited α] (h : Heap α) (r : Nat) : α :=
  (dget h.cells r).getD default

/-- In-place mutation of the cell at a reference. -/
def Heap.modify {α : Type} (h : Heap α) (r : Nat) (f : α → α) : Heap α :=
  ⟨h.nxt, hmod h.cells r f⟩

def Heap.empty {α : Type} : Heap α := ⟨0, []⟩

theorem Heap.getD_modify_self {α : Type} [Inhabited α] (h : Heap α) (r : Nat) (f : α → α)
    (hr : r ∈ dkeys h.cells) : (h.modify r f).getD r = f (h.getD r) := by
  obtain ⟨n, cells⟩ := h
  simp only [Heap.modify, Heap.getD] at *
  induction cells with
  | nil => simp [dkeys] at hr
  | cons p t ih =>
    obtain ⟨a, b⟩ := p
    by_cases ha : a = r
    · subst ha
      simp [hmod, dget]
    · simp only [dkeys, List.map_cons, List.mem_cons] at hr
      rcases hr with rfl | hr
      · exact absurd rfl ha
      · simpa [hmod, dget, ha] using ih hr

theorem Heap.getD_modify_ne {α : Type} [Inhabited α] (h : Heap α) {r r' : Nat} (f : α → α)
    (hne : r' ≠ r) : (h.modify r f).getD r' = h.getD r' := by
  obtain ⟨n, cells⟩ := h
  simp only [Heap.modify, Heap.getD] at *
  induction cells with
  | nil => simp [hmod]
  | cons p t ih =>
    obtain ⟨a, b⟩ := p
    by_cases ha : a = r
    · subst ha
      simpa [hmod, dget, Ne.symm hne] using ih
    · by_cases ha2 : a = r'
      · subst ha2
        simp [hmod, dget, ha]
      · simpa [hmod, dget, ha, ha2] using ih

theorem Heap.getD_alloc_self {α : Type} [Inhabited α] (h : Heap α) (v : α) :
    (h.alloc v).2.getD (h.alloc v).1 = v := by
  simp [Heap.alloc, Heap.getD, dget]

theorem Heap.getD_alloc_lt {α : Type} [Inhabited α] (h : Heap α) (v : α) {r : Nat}
    (hr : r < h.nxt) : (h.alloc v).2.getD r = h.getD r := by
  simp [Heap.alloc, Heap.getD, dget, Nat.ne_of_gt hr]

/-- Exact price `P(t)` computed by `tick_to_sqrt_price` (pair.py lines
505-521) before the final square root.  `std_increment_distance` is
`int(9e6)` (line 65) and `exp_at_price_one` is `-6` (line 66);
`curr_increment_lvl = int(abs(tick/9e6))` is `⌊|t|/9e6⌋`.  The function
`tick_to_sqrt_price` returns the pair `(√P(t), √(P(t)+s))`; every call
site of the engine consumes only the first component, and
`sqrt_price_to_tick` squares its argument back, so `tickToPrice` carries
all the information the engine uses, exactly. -/
def tickToPrice (t : Int) : ℚ :=
  let k : Nat := t.natAbs / 9000000
  if t > 0 then
    let s : ℚ := (10:ℚ) ^ (-6 + (k : Int))
    let numAdditiveTicks : ℚ := (t : ℚ) - (k : ℚ) * 9000000
    (10:ℚ) ^ (k : Int) + numAdditiveTicks * s
  else
    let s : ℚ := (10:ℚ) ^ (-6 - ((k : Int) + 1))
    let numAdditiveTicks : ℚ := (-t : ℚ) - (k : ℚ) * 9000000
    (10:ℚ) ^ (-(k : Int)) - numAdditiveTicks * s

/-- Linear search of the price-level loop in `sqrt_price_to_tick`.  Fuel
49 models the 50-entry table `price_levels` built from `range(50)`: the
iteration at index 49 evaluates `price_levels[50]` (IndexError) when its
first conjunct holds, and otherwise the loop False-exits leaving
`price_level` unbound (NameError); either way the call raises, which the
model folds into `Err.indexError`. -/
def searchFrom (cond : Nat → Bool) : Nat → Nat → Except Err Nat
  | _, 0 => .error .indexError
  | i, fuel + 1 => if cond i then .ok i else searchFrom cond (i + 1) fuel

/-- Embedding of `sqrt_price_to_tick` (pair.py lines 523-553) after the
squaring `price = sqrt_price**2` of line 524: recovery of the tick from
the exact price. -/
def priceToTick (price : ℚ) : Except Err Int :=
  if price = 1 then .ok 0
  else if price > 1 then
    match searchFrom
        (fun i => decide ((10:ℚ) ^ (i : Int) < price ∧ price ≤ (10:ℚ) ^ ((i : Int) + 1)))
        0 49 with
    | .error e => .error e
    | .ok i =>
      let s : ℚ := (10:ℚ) ^ ((i : Int) - 6)
      .ok ((i : Int) * 9000000 + pyRound ((price - (10:ℚ) ^ (i : Int)) / s))
  else
    match searchFrom
        (fun i => decide (price < (10:ℚ) ^ (-(i : Int)) ∧ (10:ℚ) ^ (-((i : Int) + 1)) ≤ price))
        0 49 with
    | .error e => .error e
    | .ok i =>
      let s : ℚ := (10:ℚ) ^ (-(i : Int) - 7)
      .ok (-(i : Int) * 9000000 - pyRound (((10:ℚ) ^ (-(i : Int)) - price) / s))

/-- Embedding of `sqrt_price_to_tick` applied to a rational sqrt price. -/
def sqrt_price_to_tick (sqrt_price : ℚ) : Except Err Int := priceToTick (sqrt_price ^ 2)

/-- Python list indexing `l[i]`: negative indices count from the end,
out-of-range access raises IndexError. -/
def pyListGet (l : List Int) (i : Int) : Except Err Int :=
  if 0 ≤ i then
    match l.get? i.toNat with
    | some v => .ok v
    | none => .error .indexError
  else
    let j := (-i).toNat
    if j ≤ l.length then
      match l.get? (l.length - j) with
      | some v => .ok v
      | none => .error .indexError
    else .error .indexError

/-- Python `list.index` (all call sites guarantee membership). -/
def idxOfInt : List Int → Int → Nat
  | [], _ => 0
  | x :: rest, k => if x = k then 0 else idxOfInt rest k + 1

/-- Loop of `find_next_tick` (pair.py lines 299-316): `keys` is the full
key list (used by `keys.index` and by the indexed accesses), the fourth
argument is the tail still to be scanned, and `acc` is the candidate last
recorded by the `key < tick_idx and not higher` branch (`found`/
`next_tick`). -/
def fntLoop (keys : List Int) (t : Int) (higher : Bool) :
    List Int → Option Int → Except Err (Option Int)
  | [], acc => .ok acc
  | k :: rest, acc =>
    if k < t ∧ higher = false then fntLoop keys t higher rest (some k)
    else if k = t then
      let pos : Nat := idxOfInt keys t
      if higher then (pyListGet keys ((pos : Int) + 1)).map some
      else (pyListGet keys ((pos : Int) - 1)).map some
    else if t < k ∧ higher = true then .ok (some k)
    else fntLoop keys t higher rest acc

/-- Embedding of `find_next_tick` (pair.py lines 281-320) on the key list
of the active tick dict; `.ok none` is the Python `None` return. -/
def findNextTick (keys : List Int) (t : Int) (higher : Bool) : Except Err (Option Int) :=
  fntLoop keys t higher keys none

theorem tickToPrice_pos_example : tickToPrice 3000000 = 4 := by
  norm_num [tickToPrice]

theorem tickToPrice_neg_example : tickToPrice (-7500000) = 1/4 := by
  norm_num [tickToPrice]

theorem priceToTick_example : priceToTick (9/4) = .ok 1250000 := by
  norm_num [priceToTick, searchFrom, pyRound]

/-- Embedding of `Tick` (tick.py lines 14-36). -/
structure Tick : Type where
  idx : Int
  liquidity_net : ℚ
  liquidity_gross : ℚ
  fee_growth_outside_x : ℚ
  fee_growth_outside_y : ℚ
  deriving DecidableEq

instance : Inhabited Tick := ⟨⟨0, 0, 0, 0, 0⟩⟩

/-- Embedding of `Position` (position.py lines 22-60).  `lowerRef` and
`upperRef` are the Tick heap references mirroring the `lower_tick` and
`upper_tick` object references a Python Position holds. -/
structure Position : Type where
  owner : String
  liquidity : ℚ
  lowerRef : Nat
  upperRef : Nat
  fee_growth_inside_x : ℚ
  fee_growth_inside_y : ℚ
  fees_x : ℚ
  fees_y : ℚ
  deriving DecidableEq

instance : Inhabited Position := ⟨⟨"", 0, 0, 0, 0, 0, 0, 0⟩⟩

/-- Position dict key `(owner, lower_tick_idx, upper_tick_idx)`. -/
abbrev PKey : Type := String × Int × Int

/-- Instance dictionary (`__dict__`) of a `Pair` object (pair.py lines
60-78): the scalar attributes plus the three dicts, which map keys to
heap references exactly as CPython dicts hold object references.  The
constant attributes `std_increment_distance = int(9e6)` and
`exp_at_price_one = -6` (lines 65-66) are baked into the codec. -/
structure Pair : Type where
  token_x : String
  token_y : String
  liquidity : ℚ
  init_sqrt_price : ℚ
  fee_tier : ℚ
  tick_spacing : Int
  curr_sqrt_price : ℚ
  curr_tick_idx : Int
  ticks : List (Int × Nat)
  all_ticks : List (Int × Nat)
  positions : List (PKey × Nat)
  fee_growth_global_x : ℚ
  fee_growth_global_y : ℚ
  token_x_balance : ℚ
  token_y_balance : ℚ
  deriving DecidableEq

/-- Full machine state: the Pair record plus the two object heaps. -/
structure Machine : Type where
  pair : Pair
  tickHeap : Heap Tick
  posHeap : Heap Position
  deriving DecidableEq

/-- Embedding of `fee_growth_outside` (pair.py lines 322-342). -/
def fee_growth_outside (m : Machine) (tick_idx : Int) : ℚ × ℚ :=
  match dget m.pair.ticks tick_idx with
  | none =>
    if m.pair.curr_tick_idx ≥ tick_idx then
      (m.pair.fee_growth_global_x, m.pair.fee_growth_global_y)
    else (0, 0)
  | some r =>
    (m.pair.fee_growth_global_x - (m.tickHeap.getD r).fee_growth_outside_x,
     m.pair.fee_growth_global_y - (m.tickHeap.getD r).fee_growth_outside_y)

/-- Embedding of `fee_within_range` (pair.py lines 344-391). -/
def fee_within_range (m : Machine) (lower_tick upper_tick : Tick) : ℚ × ℚ :=
  let fee_below_lower :=
    if m.pair.curr_tick_idx ≥ lower_tick.idx then
      (lower_tick.fee_growth_outside_x, lower_tick.fee_growth_outside_y)
    else
      (m.pair.fee_growth_global_x - lower_tick.fee_growth_outside_x,
       m.pair.fee_growth_global_y - lower_tick.fee_growth_outside_y)
  let fee_above_upper :=
    if m.pair.curr_tick_idx ≥ upper_tick.idx then
      (m.pair.fee_growth_global_x - upper_tick.fee_growth_outside_x,
       m.pair.fee_growth_global_y - upper_tick.fee_growth_outside_y)
    else
      (upper_tick.fee_growth_outside_x, upper_tick.fee_growth_outside_y)
  (m.pair.fee_growth_global_x - fee_above_upper.1 - fee_below_lower.1,
   m.pair.fee_growth_global_y - fee_above_upper.2 - fee_below_lower.2)

/-- Embedding of `get_fees` (pair.py lines 393-418): reads only, and the
`self.all_ticks[...]` accesses raise KeyError on a missing boundary. -/
def get_fees (m : Machine) (pr : Nat) : Except Err (ℚ × ℚ) :=
  let position := m.posHeap.getD pr
  let lidx := (m.tickHeap.getD position.lowerRef).idx
  let uidx := (m.tickHeap.getD position.upperRef).idx
  match dget m.pair.all_ticks lidx, dget m.pair.all_ticks uidx with
  | some rl, some ru =>
    let fw := fee_within_range m (m.tickHeap.getD rl) (m.tickHeap.getD ru)
    .ok ((fw.1 - position.fee_growth_inside_x) * position.liquidity,
         (fw.2 - position.fee_growth_inside_y) * position.liquidity)
  | _, _ => .error .keyError

/-- Embedding of `collect_fees` (pair.py lines 420-449).  The source
recomputes `fee_within_range` on unchanged state (lines 438-441); the
model computes the value once and uses it both for the fee amounts and
for the new `fee_growth_inside` snapshot. -/
def collect_fees (m : Machine) (pr : Nat) : PRes (ℚ × ℚ) × Machine :=
  let position := m.posHeap.getD pr
  let lidx := (m.tickHeap.getD position.lowerRef).idx
  let uidx := (m.tickHeap.getD position.upperRef).idx
  match dget m.pair.all_ticks lidx, dget m.pair.all_ticks uidx with
  | some rl, some ru =>
    let fw := fee_within_range m (m.tickHeap.getD rl) (m.tickHeap.getD ru)
    let fees_x := (fw.1 - position.fee_growth_inside_x) * position.liquidity
    let fees_y := (fw.2 - position.fee_growth_inside_y) * position.liquidity
    (.ok (fees_x, fees_y),
      { m with posHeap := m.posHeap.modify pr fun p =>
        { p with fee_growth_inside_x := fw.1, fee_growth_inside_y := fw.2,
                 fees_x := p.fees_x + fees_x, fees_y := p.fees_y + fees_y } })
  | _, _ => (.exc .keyError, m)

/-- Embedding of `withdraw_fees` (pair.py lines 451-478). -/
def withdraw_fees (m : Machine) (pr : Nat) : PRes (ℚ × ℚ) × Machine :=
  match collect_fees m pr with
  | (.exc e, m1) => (.exc e, m1)
  | (.out, m1) => (.out, m1)
  | (.ok _, m1) =>
    let position := m1.posHeap.getD pr
    let fees_x := position.fees_x
    let fees_y := position.fees_y
    let m2 := { m1 with posHeap := m1.posHeap.modify pr fun p =>
      { p with fees_x := 0, fees_y := 0 } }
    let afterDel : PRes Unit × Machine :=
      if position.liquidity = 0 then
        let key : PKey := (position.owner, (m2.tickHeap.getD position.lowerRef).idx,
                           (m2.tickHeap.getD position.upperRef).idx)
        match dget m2.pair.positions key with
        | none => (.exc .keyError, m2)
        | some _ =>
          (.ok (), { m2 with pair :=
            { m2.pair with positions := ddel m2.pair.positions key } })
      else (.ok (), m2)
    match afterDel with
    | (.exc e, m3) => (.exc e, m3)
    | (.out, m3) => (.out, m3)
    | (.ok _, m3) =>
      (.ok (fees_x, fees_y),
        { m3 with pair := { m3.pair with
          token_x_balance := m3.pair.token_x_balance - fees_x,
          token_y_balance := m3.pair.token_y_balance - fees_y } })

/-- Embedding of `liquidity_to_tokens` (pair.py lines 230-266) with the
optional sqrt-price argument made explicit; the internal call sites pass
the pool's current sqrt price (the `None` default).  `sqrtFn` stands for
`t ↦ first (tick_to_sqrt_price t)`. -/
def liquidity_to_tokens (sqrtFn : Int → ℚ) (liquidity : ℚ)
    (lower_tick_idx upper_tick_idx : Int) (sqrt_price : ℚ) : Except Err (ℚ × ℚ) :=
  let p_b := sqrtFn upper_tick_idx
  let p_a := sqrtFn lower_tick_idx
  let p_c := sqrt_price
  if p_b * p_c = 0 then .error .zeroDivision
  else
    .ok (max (liquidity * (p_b - p_c) / (p_b * p_c)) 0,
         max (liquidity * (p_c - p_a)) 0)

/-- Embedding of `update_tick_map` (pair.py lines 268-279). -/
def update_tick_map (m : Machine) (tick_idx : Int) : PRes Unit × Machine :=
  match dget m.pair.ticks tick_idx with
  | none => (.exc .keyError, m)
  | some r =>
    let m1 := if (m.tickHeap.getD r).liquidity_gross = 0 then
        { m with pair := { m.pair with ticks := ddel m.pair.ticks tick_idx } }
      else m
    (.ok (), { m1 with pair := { m1.pair with ticks := sortTicks m1.pair.ticks } })

/-- Lower-boundary block of `add_liquidity` (pair.py lines 125-139):
create the tick (inserting the same reference into `ticks` and
`all_ticks`) or update net/gross liquidity in place. -/
def ensureTickLower (m : Machine) (idx : Int) (liquidity : ℚ) : Machine :=
  match dget m.pair.ticks idx with
  | none =>
    let fo := fee_growth_outside m idx
    let av := m.tickHeap.alloc ⟨idx, liquidity, liquidity, fo.1, fo.2⟩
    { m with
      tickHeap := av.2
      pair := { m.pair with
                ticks := dset m.pair.ticks idx av.1
                all_ticks := dset m.pair.all_ticks idx av.1 } }
  | some r =>
    { m with tickHeap := m.tickHeap.modify r fun t =>
      { t with
        liquidity_net := t.liquidity_net + liquidity
        liquidity_gross := t.liquidity_gross + liquidity } }

/-- Upper-boundary block of `add_liquidity` (pair.py lines 141-155):
as `ensureTickLower` with the sign of `liquidity_net` flipped. -/
def ensureTickUpper (m : Machine) (idx : Int) (liquidity : ℚ) : Machine :=
  match dget m.pair.ticks idx with
  | none =>
    let fo := fee_growth_outside m idx
    let av := m.tickHeap.alloc ⟨idx, -liquidity, liquidity, fo.1, fo.2⟩
    { m with
      tickHeap := av.2
      pair := { m.pair with
                ticks := dset m.pair.ticks idx av.1
                all_ticks := dset m.pair.all_ticks idx av.1 } }
  | some r =>
    { m with tickHeap := m.tickHeap.modify r fun t =>
      { t with
        liquidity_net := t.liquidity_net - liquidity
        liquidity_gross := t.liquidity_gross + liquidity } }

/-- Common tail of `add_liquidity` (pair.py lines 175-180): sort the tick
map, convert the liquidity to token deltas at the current sqrt price, add
them to the balances and return the position. -/
def add_liquidity_tail (sqrtFn : Int → ℚ) (m : Machine) (liquidity : ℚ)
    (lower_tick_idx upper_tick_idx : Int) (pr : Nat) : PRes Nat × Machine :=
  let m1 := { m with pair := { m.pair with ticks := sortTicks m.pair.ticks } }
  match liquidity_to_tokens sqrtFn liquidity lower_tick_idx upper_tick_idx
      m1.pair.curr_sqrt_price with
  | .error e => (.exc e, m1)
  | .ok d =>
    (.ok pr, { m1 with pair := { m1.pair with
      token_x_balance := m1.pair.token_x_balance + d.1,
      token_y_balance := m1.pair.token_y_balance + d.2 } })

/-- Embedding of `add_liquidity` (pair.py lines 80-180); the returned
value is the reference of the Position object the source returns. -/
def add_liquidity (sqrtFn : Int → ℚ) (m : Machine) (owner : String) (liquidity : ℚ)
    (lower_tick_idx upper_tick_idx : Int) : PRes Nat × Machine :=
  let m0 := if m.pair.curr_tick_idx ≥ lower_tick_idx ∧
      m.pair.curr_tick_idx < upper_tick_idx then
      { m with pair := { m.pair with liquidity := m.pair.liquidity + liquidity } }
    else m
  let key : PKey := (owner, lower_tick_idx, upper_tick_idx)
  match dget m0.pair.positions key, dget m0.pair.ticks lower_tick_idx,
      dget m0.pair.ticks upper_tick_idx with
  | some pr, some rl, some ru =>
    match collect_fees m0 pr with
    | (.exc e, m1) => (.exc e, m1)
    | (.out, m1) => (.out, m1)
    | (.ok _, m1) =>
      let m2 := { m1 with posHeap := m1.posHeap.modify pr fun p =>
        { p with liquidity := p.liquidity + liquidity } }
      let m3 := { m2 with tickHeap :=
        ((m2.tickHeap.modify rl fun t =>
            { t with liquidity_net := t.liquidity_net + liquidity,
                     liquidity_gross := t.liquidity_gross + liquidity }).modify ru
          fun t =>
            { t with liquidity_net := t.liquidity_net - liquidity,
                     liquidity_gross := t.liquidity_gross + liquidity }) }
      add_liquidity_tail sqrtFn m3 liquidity lower_tick_idx upper_tick_idx pr
  | _, _, _ =>
    let m1 := ensureTickLower m0 lower_tick_idx liquidity
    let m2 := ensureTickUpper m1 upper_tick_idx liquidity
    match dget m2.pair.positions key with
    | some pr =>
      match collect_fees m2 pr with
      | (.exc e, m3) => (.exc e, m3)
      | (.out, m3) => (.out, m3)
      | (.ok _, m3) =>
        let m4 := { m3 with posHeap := m3.posHeap.modify pr fun p =>
          { p with liquidity := p.liquidity + liquidity } }
        let m5 := { m4 with pair :=
          { m4.pair with positions := dset m4.pair.positions key pr } }
        add_liquidity_tail sqrtFn m5 liquidity lower_tick_idx upper_tick_idx pr
    | none =>
      match dget m2.pair.ticks lower_tick_idx, dget m2.pair.ticks upper_tick_idx with
      | some rl, some ru =>
        let fw := fee_within_range m2 (m2.tickHeap.getD rl) (m2.tickHeap.getD ru)
        let av := m2.posHeap.alloc ⟨owner, liquidity, rl, ru, fw.1, fw.2, 0, 0⟩
        let m3 := { m2 with
          posHeap := av.2
          pair := { m2.pair with positions := dset m2.pair.positions key av.1 } }
        add_liquidity_tail sqrtFn m3 liquidity lower_tick_idx upper_tick_idx av.1
      | _, _ => (.exc .keyError, m2)

/-- Embedding of `remove_liquidity` (pair.py lines 182-222). -/
def remove_liquidity (sqrtFn : Int → ℚ) (m : Machine) (pr : Nat) (liquidity : ℚ) :
    PRes Unit × Machine :=
  let position := m.posHeap.getD pr
  let lidx := (m.tickHeap.getD position.lowerRef).idx
  let uidx := (m.tickHeap.getD position.upperRef).idx
  let m0 := if m.pair.curr_tick_idx ≥ lidx ∧ m.pair.curr_tick_idx < uidx then
      { m with pair := { m.pair with liquidity := m.pair.liquidity - liquidity } }
    else m
  match get_fees m0 pr with
  | .error e => (.exc e, m0)
  | .ok fees =>
    let step2 : PRes Unit × Machine :=
      if position.liquidity = liquidity ∧ fees.1 = 0 ∧ fees.2 = 0 then
        let key : PKey := (position.owner, lidx, uidx)
        match dget m0.pair.positions key with
        | none => (.exc .keyError, m0)
        | some _ =>
          (.ok (), { m0 with pair :=
            { m0.pair with positions := ddel m0.pair.positions key } })
      else
        match collect_fees m0 pr with
        | (.exc e, mc) => (.exc e, mc)
        | (.out, mc) => (.out, mc)
        | (.ok _, mc) =>
          (.ok (), { mc with posHeap := mc.posHeap.modify pr fun p =>
            { p with liquidity := p.liquidity - liquidity } })
    match step2 with
    | (.exc e, m1) => (.exc e, m1)
    | (.out, m1) => (.out, m1)
    | (.ok _, m1) =>
      match dget m1.pair.ticks lidx with
      | none => (.exc .keyError, m1)
      | some rl =>
        let m2 := { m1 with tickHeap := m1.tickHeap.modify rl fun t =>
          { t with liquidity_net := t.liquidity_net - liquidity,
                   liquidity_gross := t.liquidity_gross - liquidity } }
        match update_tick_map m2 lidx with
        | (.exc e, m3) => (.exc e, m3)
        | (.out, m3) => (.out, m3)
        | (.ok _, m3) =>
          match dget m3.pair.ticks uidx with
          | none => (.exc .keyError, m3)
          | some ru =>
            let m4 := { m3 with tickHeap := m3.tickHeap.modify ru fun t =>
              { t with liquidity_net := t.liquidity_net + liquidity,
                       liquidity_gross := t.liquidity_gross - liquidity } }
            match update_tick_map m4 uidx with
            | (.exc e, m5) => (.exc e, m5)
            | (.out, m5) => (.out, m5)
            | (.ok _, m5) =>
              match liquidity_to_tokens sqrtFn liquidity lidx uidx
                  m5.pair.curr_sqrt_price with
              | .error e => (.exc e, m5)
              | .ok d =>
                (.ok (), { m5 with pair := { m5.pair with
                  token_x_balance := m5.pair.token_x_balance - d.1,
                  token_y_balance := m5.pair.token_y_balance - d.2 } })

/-- Embedding of `deduct_fees` (pair.py lines 555-573). -/
def deduct_fees (fee_tier : ℚ) (amount_in : ℚ) : ℚ × ℚ :=
  let fees_deducted : ℚ := (pyInt (amount_in * fee_tier) : ℚ)
  (amount_in - fees_deducted, fees_deducted)

/-- Embedding of `add_fees` (pair.py lines 575-593); `fee_tier = 1`
raises ZeroDivisionError. -/
def add_fees (fee_tier : ℚ) (amount_used_for_swap : ℚ) : Except Err (ℚ × ℚ) :=
  if (1 : ℚ) - fee_tier = 0 then .error .zeroDivision
  else
    let amount_used := amount_used_for_swap / (1 - fee_tier)
    .ok (amount_used, amount_used - amount_used_for_swap)

/-- Loop of `swap_x_for_y` (pair.py lines 684-743), with explicit fuel.
The Python local variables mutated across iterations (`amount_remaining`,
`amount_out`, `next_tick`, `lower_tick_sqrt_price`) are the last four
arguments.  Each Python division is preceded by an explicit
ZeroDivisionError check.  The two `print` calls of the crossing branch
only read values that are always present at that point (the crossed tick
is a member of the key list and the pool liquidity was a successful
divisor in the same iteration), so they are not modelled. -/
def swapXLoop (sqrtFn : Int → ℚ) (limit : ℚ) :
    Nat → Machine → ℚ → ℚ → Int → ℚ → PRes ℚ × Machine
  | 0, m, _, _, _, _ => (.out, m)
  | fuel + 1, m, rem, out, next_tick, target =>
    if ¬rem > 0 then (.ok out, m)
    else
      let df := deduct_fees m.pair.fee_tier rem
      if m.pair.liquidity = 0 then (.exc .zeroDivision, m)
      else if m.pair.curr_sqrt_price = 0 then (.exc .zeroDivision, m)
      else
        let delta_inv := df.1 / m.pair.liquidity
        let upd_inv := 1 / m.pair.curr_sqrt_price + delta_inv
        if upd_inv = 0 then (.exc .zeroDivision, m)
        else
          let upd := 1 / upd_inv
          if upd ≥ target then
            let out2 := out + (pyInt ((m.pair.curr_sqrt_price - upd) * m.pair.liquidity) : ℚ)
            let m1 := { m with pair := { m.pair with
              fee_growth_global_x := m.pair.fee_growth_global_x + df.2 / m.pair.liquidity,
              curr_sqrt_price := upd } }
            match sqrt_price_to_tick m1.pair.curr_sqrt_price with
            | .error e => (.exc e, m1)
            | .ok tk =>
              let m2 := { m1 with pair := { m1.pair with curr_tick_idx := tk } }
              if m2.pair.curr_sqrt_price ≤ limit then (.exc .slippageTooHigh, m2)
              else (.ok out2, m2)
          else
            if target = 0 then (.exc .zeroDivision, m)
            else
              let amount_used_for_swap :=
                (1 / target - 1 / m.pair.curr_sqrt_price) * m.pair.liquidity
              match add_fees m.pair.fee_tier amount_used_for_swap with
              | .error e => (.exc e, m)
              | .ok af =>
                let out2 := out + (pyInt ((m.pair.curr_sqrt_price - target) * m.pair.liquidity) : ℚ)
                let rem2 := rem - af.1
                let m1 := { m with pair := { m.pair with
                  fee_growth_global_x := m.pair.fee_growth_global_x + af.2 / m.pair.liquidity,
                  curr_tick_idx := next_tick } }
                match findNextTick (dkeys m1.pair.ticks) m1.pair.curr_tick_idx false with
                | .error e => (.exc e, m1)
                | .ok none => (.exc .insufficientLiquidity, m1)
                | .ok (some nt2) =>
                  let m2 := { m1 with pair := { m1.pair with curr_sqrt_price := target } }
                  match dget m2.pair.ticks m2.pair.curr_tick_idx with
                  | none => (.exc .keyError, m2)
                  | some rc =>
                    let m3 := { m2 with pair := { m2.pair with
                      liquidity := m2.pair.liquidity - (m2.tickHeap.getD rc).liquidity_net } }
                    if m3.pair.liquidity = 0 then (.exc .insufficientLiquidity, m3)
                    else
                      let target2 := sqrtFn nt2
                      let fo := fee_growth_outside m3 m3.pair.curr_tick_idx
                      let m4 := { m3 with tickHeap := m3.tickHeap.modify rc fun t =>
                        { t with
                          fee_growth_outside_x := fo.1
                          fee_growth_outside_y := fo.2 } }
                      if m4.pair.curr_sqrt_price ≤ limit then (.exc .slippageTooHigh, m4)
                      else swapXLoop sqrtFn limit fuel m4 rem2 out2 nt2 target2

/-- Embedding of `swap_x_for_y` (pair.py lines 656-743): the setup of
lines 677-682 followed by the loop. -/
def swap_x_for_y (sqrtFn : Int → ℚ) (fuel : Nat) (m : Machine)
    (amount_in sqrt_price_limit : ℚ) : PRes ℚ × Machine :=
  match findNextTick (dkeys m.pair.ticks) m.pair.curr_tick_idx false with
  | .error e => (.exc e, m)
  | .ok none => (.exc .insufficientLiquidity, m)
  | .ok (some nt) => swapXLoop sqrtFn sqrt_price_limit fuel m amount_in 0 nt (sqrtFn nt)

/-- Loop of `swap_y_for_x` (pair.py lines 773-828), the ascending mirror
of `swapXLoop`; note that this direction accumulates `amount_out`
without the `int(...)` truncation the x-direction applies. -/
def swapYLoop (sqrtFn : Int → ℚ) (limit : ℚ) :
    Nat → Machine → ℚ → ℚ → Int → ℚ → PRes ℚ × Machine
  | 0, m, _, _, _, _ => (.out, m)
  | fuel + 1, m, rem, out, next_tick, target =>
    if ¬rem > 0 then (.ok out, m)
    else
      let df := deduct_fees m.pair.fee_tier rem
      if m.pair.liquidity = 0 then (.exc .zeroDivision, m)
      else
        let delta_sp := df.1 / m.pair.liquidity
        let upd := m.pair.curr_sqrt_price + delta_sp
        if upd ≤ target then
          if m.pair.curr_sqrt_price = 0 then (.exc .zeroDivision, m)
          else if upd = 0 then (.exc .zeroDivision, m)
          else
            let delta_inv := 1 / m.pair.curr_sqrt_price - 1 / upd
            let out2 := out + delta_inv * m.pair.liquidity
            let m1 := { m with pair := { m.pair with
              fee_growth_global_y := m.pair.fee_growth_global_y + df.2 / m.pair.liquidity,
              curr_sqrt_price := upd } }
            match sqrt_price_to_tick m1.pair.curr_sqrt_price with
            | .error e => (.exc e, m1)
            | .ok tk =>
              let m2 := { m1 with pair := { m1.pair with curr_tick_idx := tk } }
              if m2.pair.curr_sqrt_price ≥ limit then (.exc .slippageTooHigh, m2)
              else (.ok out2, m2)
        else
          let amount_used_for_swap :=
            (target - m.pair.curr_sqrt_price) * m.pair.liquidity
          match add_fees m.pair.fee_tier amount_used_for_swap with
          | .error e => (.exc e, m)
          | .ok af =>
            if m.pair.curr_sqrt_price = 0 then (.exc .zeroDivision, m)
            else if target = 0 then (.exc .zeroDivision, m)
            else
              let delta_inv := 1 / m.pair.curr_sqrt_price - 1 / target
              let out2 := out + delta_inv * m.pair.liquidity
              let rem2 := rem - af.1
              let m1 := { m with pair := { m.pair with
                fee_growth_global_y := m.pair.fee_growth_global_y + af.2 / m.pair.liquidity,
                curr_tick_idx := next_tick } }
              match findNextTick (dkeys m1.pair.ticks) m1.pair.curr_tick_idx true with
              | .error e => (.exc e, m1)
              | .ok none => (.exc .insufficientLiquidity, m1)
              | .ok (some nt2) =>
                let m2 := { m1 with pair := { m1.pair with curr_sqrt_price := target } }
                match dget m2.pair.ticks m2.pair.curr_tick_idx with
                | none => (.exc .keyError, m2)
                | some rc =>
                  let m3 := { m2 with pair := { m2.pair with
                    liquidity := m2.pair.liquidity + (m2.tickHeap.getD rc).liquidity_net } }
                  if m3.pair.liquidity = 0 then (.exc .insufficientLiquidity, m3)
                  else
                    let target2 := sqrtFn nt2
                    let fo := fee_growth_outside m3 m3.pair.curr_tick_idx
                    let m4 := { m3 with tickHeap := m3.tickHeap.modify rc fun t =>
                      { t with
                        fee_growth_outside_x := fo.1
                        fee_growth_outside_y := fo.2 } }
                    if m4.pair.curr_sqrt_price ≥ limit then (.exc .slippageTooHigh, m4)
                    else swapYLoop sqrtFn limit fuel m4 rem2 out2 nt2 target2

/-- Embedding of `swap_y_for_x` (pair.py lines 745-828). -/
def swap_y_for_x (sqrtFn : Int → ℚ) (fuel : Nat) (m : Machine)
    (amount_in sqrt_price_limit : ℚ) : PRes ℚ × Machine :=
  match findNextTick (dkeys m.pair.ticks) m.pair.curr_tick_idx true with
  | .error e => (.exc e, m)
  | .ok none => (.exc .insufficientLiquidity, m)
  | .ok (some nt) => swapYLoop sqrtFn sqrt_price_limit fuel m amount_in 0 nt (sqrtFn nt)

/-- Embedding of `swap` (pair.py lines 607-654): snapshot of `__dict__`
(the `Pair` record; the heaps are the shared objects the shallow copy
aliases), dispatch on the input token (any token other than `token_x`
takes the y-for-x branch), balance updates on success, restore of the
snapshot in simulate mode, and the catch-all `except Exception` that
restores the snapshot and returns Python `None` — modelled as `.ok none`,
a normal return. -/
def swap (sqrtFn : Int → ℚ) (fuel : Nat) (m : Machine) (token_in_addr : String)
    (amount_in sqrt_price_limit : ℚ) (simulate : Bool) : PRes (Option ℚ) × Machine :=
  let original_state := m.pair
  if token_in_addr = m.pair.token_x then
    match swap_x_for_y sqrtFn fuel m amount_in sqrt_price_limit with
    | (.ok amount_out, m1) =>
      let m2 := if simulate then m1 else
        { m1 with pair := { m1.pair with
          token_x_balance := m1.pair.token_x_balance + amount_in,
          token_y_balance := m1.pair.token_y_balance - amount_out } }
      let m3 := if simulate then { m2 with pair := original_state } else m2
      (.ok (some amount_out), m3)
    | (.exc _, m1) => (.ok none, { m1 with pair := original_state })
    | (.out, m1) => (.out, m1)
  else
    match swap_y_for_x sqrtFn fuel m amount_in sqrt_price_limit with
    | (.ok amount_out, m1) =>
      let m2 := if simulate then m1 else
        { m1 with pair := { m1.pair with
          token_y_balance := m1.pair.token_y_balance + amount_in,
          token_x_balance := m1.pair.token_x_balance - amount_out } }
      let m3 := if simulate then { m2 with pair := original_state } else m2
      (.ok (some amount_out), m3)
    | (.exc _, m1) => (.ok none, { m1 with pair := original_state })
    | (.out, m1) => (.out, m1)

/-- Embedding of `Pair.__init__` (pair.py lines 35-78); the constructor
calls `sqrt_price_to_tick` (line 69) and can therefore itself raise. -/
def mkPair (token_x token_y : String) (init_sqrt_price fee_tier : ℚ)
    (tick_spacing : Int) : Except Err Machine :=
  match sqrt_price_to_tick init_sqrt_price with
  | .error e => .error e
  | .ok t0 => .ok
    { pair :=
        { token_x := token_x
          token_y := token_y
          liquidity := 0
          init_sqrt_price := init_sqrt_price
          fee_tier := fee_tier
          tick_spacing := tick_spacing
          curr_sqrt_price := init_sqrt_price
          curr_tick_idx := t0
          ticks := []
          all_ticks := []
          positions := []
          fee_growth_global_x := 0
          fee_growth_global_y := 0
          token_x_balance := 0
          token_y_balance := 0 }
      tickHeap := Heap.empty
      posHeap := Heap.empty }

theorem searchFrom_ok {cond : Nat → Bool} {i f k : Nat} (hik : i ≤ k) (hkf : k < i + f)
    (hk : cond k = true) (hmin : ∀ j, i ≤ j → j < k → cond j = false) :
    searchFrom cond i f = .ok k := by
  induction f generalizing i with
  | zero => omega
  | succ f ih =>
    rcases Nat.eq_or_lt_of_le hik with rfl | hlt
    · simp [searchFrom, hk]
    · have hci : cond i = false := hmin i le_rfl hlt
      simp only [searchFrom, hci, Bool.false_eq_true, if_false]
      exact ih (by omega) (by omega) fun j hj1 hj2 => hmin j (by omega) hj2

theorem searchFrom_none {cond : Nat → Bool} {i f : Nat}
    (h : ∀ j, i ≤ j → j < i + f → cond j = false) :
    searchFrom cond i f = .error .indexError := by
  induction f generalizing i with
  | zero => rfl
  | succ f ih =>
    have hci : cond i = false := h i le_rfl (by omega)
    simp only [searchFrom, hci, Bool.false_eq_true, if_false]
    exact ih fun j hj1 hj2 => h j (by omega) (by omega)

/-- Specification-side `liquidity_to_tokens` (spec §4.6): the same
formulas but with the sqrt price clamped into the range, `√pc =
clamp(√p, √pa, √pb)`.  Declared only for comparison with the source
embedding `liquidity_to_tokens`; the clamping is not in the code. -/
def liquidity_to_tokens_spec (sqrtFn : Int → ℚ) (liquidity : ℚ)
    (lower_tick_idx upper_tick_idx : Int) (sqrt_price : ℚ) : Except Err (ℚ × ℚ) :=
  let p_b := sqrtFn upper_tick_idx
  let p_a := sqrtFn lower_tick_idx
  let p_c := max p_a (min sqrt_price p_b)
  if p_b * p_c = 0 then .error .zeroDivision
  else
    .ok (max (liquidity * (p_b - p_c) / (p_b * p_c)) 0,
         max (liquidity * (p_c - p_a)) 0)

/-- Sqrt-price map used by the concrete scenarios.  It agrees with
`t ↦ first (tick_to_sqrt_price t)` on every tick the scenarios touch:
`P(-7500000) = 1/4`, `P(0) = 1`, `P(3000000) = 4` (see
`tickToPrice_neg_example` and `tickToPrice_pos_example`), whose square
roots 1/2, 1 and 2 are exact in Python floats as well. -/
def sqrtFn0 (t : Int) : ℚ :=
  if t = 3000000 then 2 else if t = -7500000 then 1/2 else 1

/-- C4: with active ticks at 10 and 20, `find_next_tick(10, higher=False)`
returns 20 — an active tick on the wrong side of 10 — instead of "none":
`keys.index(10)` is 0 and `keys[position - 1]` evaluates `keys[-1]`, which
Python wraps around to the last element of the list. -/
theorem c4_wrong_side_at_smallest_key :
    findNextTick [10, 20] 10 false = .ok (some 20) := by
  norm_num [findNextTick, fntLoop, idxOfInt, pyListGet, Except.map]

/-- C5 counterexample: for L = 1 on the range [0, 3000000) (√pa = 1,
√pb = 2) at √p = 3, the source returns Δy = L·(√p − √pa) = 2 while the
claimed clamped formula gives Δy = L·(√pb − √pa) = 1 (the value at the
nearer range edge): the sqrt price is not clamped. -/
theorem c5_counterexample :
    liquidity_to_tokens sqrtFn0 1 0 3000000 3 = .ok (0, 2) ∧
    liquidity_to_tokens_spec sqrtFn0 1 0 3000000 3 = .ok (0, 1) := by
  constructor
  · norm_num [liquidity_to_tokens, sqrtFn0]
  · norm_num [liquidity_to_tokens_spec, sqrtFn0]

/-- C5 amended: `liquidity_to_tokens` applies no clamping, so the claimed
formulas hold exactly when the sqrt price already lies inside
[√pa, √pb]: there the source coincides with the clamped spec formulas
(both floored at 0).  Outside the range the vanishing component matches
the edge value 0 but the other strictly exceeds its edge value. -/
theorem c5_clamped_in_range (sqrtFn : Int → ℚ) (L p : ℚ) (lo hi : Int)
    (h1 : sqrtFn lo ≤ p) (h2 : p ≤ sqrtFn hi) :
    liquidity_to_tokens sqrtFn L lo hi p = liquidity_to_tokens_spec sqrtFn L lo hi p := by
  simp only [liquidity_to_tokens, liquidity_to_tokens_spec]
  rw [min_eq_left h2, max_eq_right h1]

/-- Witness for the amended C5 at √pa = 1 ≤ √p = 3/2 ≤ √pb = 2. -/
theorem c5_witness :
    liquidity_to_tokens sqrtFn0 1 0 3000000 (3/2) =
      liquidity_to_tokens_spec sqrtFn0 1 0 3000000 (3/2) :=
  c5_clamped_in_range sqrtFn0 1 (3/2) 0 3000000 (by norm_num [sqrtFn0])
    (by norm_num [sqrtFn0])

/-- C7 counterexample: t = 450000000 is a multiple of any realistic tick
spacing (100 here), `tick_to_sqrt_price` maps it to the price 10^50, and
`sqrt_price_to_tick` then raises (its price-level table stops at 10^49)
instead of returning t. -/
theorem c7_counterexample :
    (450000000 : Int) % 100 = 0 ∧
    priceToTick (tickToPrice 450000000) = .error .indexError := by
  refine ⟨by decide, ?_⟩
  have hp : tickToPrice 450000000 = (10:ℚ) ^ (50:ℤ) := by
    norm_num [tickToPrice]
  rw [hp]
  have h1 : ((10:ℚ) ^ (50:ℤ) = 1) = False := by norm_num
  have hs : searchFrom
      (fun i => decide ((10:ℚ) ^ (i : Int) < (10:ℚ) ^ (50:ℤ) ∧
        (10:ℚ) ^ (50:ℤ) ≤ (10:ℚ) ^ ((i : Int) + 1)))
      0 49 = .error .indexError := by
    apply searchFrom_none
    intro j hj1 hj2
    simp only [decide_eq_false_iff_not, not_and, not_le]
    intro hlt
    have hj : ((j:ℤ) + 1) < 50 := by omega
    exact zpow_lt_zpow_right₀ (by norm_num) hj
  simp only [priceToTick, h1, if_false]
  rw [if_pos (show (1:ℚ) < (10:ℚ) ^ (50:ℤ) by norm_num), hs]

/-- Freshly constructed pool `Pair("x", "y", 3/2, 0, 100)`:
`sqrt_price_to_tick(3/2)` yields tick 1250000 (see `priceToTick_example`).
Used by the validation and empty-pool scenarios. -/
def mA : Machine :=
  { pair :=
      { token_x := "x"
        token_y := "y"
        liquidity := 0
        init_sqrt_price := 3/2
        fee_tier := 0
        tick_spacing := 100
        curr_sqrt_price := 3/2
        curr_tick_idx := 1250000
        ticks := []
        all_ticks := []
        positions := []
        fee_growth_global_x := 0
        fee_growth_global_y := 0
        token_x_balance := 0
        token_y_balance := 0 }
    tickHeap := Heap.empty
    posHeap := Heap.empty }

theorem mkPair_mA : mkPair ("x") ("y") (3/2) 0 100 = .ok mA := by
  have h : sqrt_price_to_tick (3/2) = .ok 1250000 := by
    unfold sqrt_price_to_tick
    norm_num [priceToTick, searchFrom, pyRound]
  simp [mkPair, h, mA, Heap.empty]

/-- C1 counterexample: on the freshly constructed pool `mA` (no active
ticks) a swap fails internally with InsufficientLiquidity, but the caller
observes a normal return of Python `None` (`.ok none`), not the error:
the `except` block of `swap` does not re-raise. -/
theorem c1_counterexample :
    (swap sqrtFn0 1 mA ("x") 10 0 false).1 = .ok none ∧
    (swap sqrtFn0 1 mA ("x") 10 0 false).1 ≠ .exc .insufficientLiquidity := by
  have h1 : (swap sqrtFn0 1 mA ("x") 10 0 false).1 = .ok none := by
    norm_num [swap, swap_x_for_y, findNextTick, fntLoop, mA, dkeys]
  refine ⟨h1, ?_⟩
  rw [h1]
  exact fun h => PRes.noConfusion h

/-- C1 amended: `swap` never lets an exception propagate (the catch-all
`except` swallows every internal failure), and whenever it returns `None`
— which happens exactly on the failure path — the pool's instance
attributes (`__dict__`, the `Pair` record) are restored to the pre-call
snapshot.  Tick objects mutated during the traversal are outside the
snapshot (they are heap cells aliased, not copied). -/
theorem c1_swap_swallows_and_restores (sqrtFn : Int → ℚ) (fuel : Nat) (m : Machine)
    (tok : String) (a lim : ℚ) (sim : Bool) :
    (∀ e, (swap sqrtFn fuel m tok a lim sim).1 ≠ .exc e) ∧
    ((swap sqrtFn fuel m tok a lim sim).1 = .ok none →
      (swap sqrtFn fuel m tok a lim sim).2.pair = m.pair) := by
  refine ⟨?_, ?_⟩
  · intro e
    by_cases htok : tok = m.pair.token_x
    · rcases h2 : swap_x_for_y sqrtFn fuel m a lim with ⟨r, m1⟩
      cases r <;> simp [swap, htok, h2]
    · rcases h2 : swap_y_for_x sqrtFn fuel m a lim with ⟨r, m1⟩
      cases r <;> simp [swap, htok, h2]
  · intro hnone
    by_cases htok : tok = m.pair.token_x
    · rcases h2 : swap_x_for_y sqrtFn fuel m a lim with ⟨r, m1⟩
      cases r with
      | ok v => simp [swap, htok, h2] at hnone
      | exc e => simp [swap, htok, h2]
      | out => simp [swap, htok, h2] at hnone
    · rcases h2 : swap_y_for_x sqrtFn fuel m a lim with ⟨r, m1⟩
      cases r with
      | ok v => simp [swap, htok, h2] at hnone
      | exc e => simp [swap, htok, h2]
      | out => simp [swap, htok, h2] at hnone

/-- Witness for the amended C1: the failed swap on the empty pool
returns with the Pair record equal to its pre-call value. -/
theorem c1_witness :
    (swap sqrtFn0 1 mA ("x") 10 0 false).2.pair = mA.pair :=
  (c1_swap_swallows_and_restores sqrtFn0 1 mA ("x") 10 0 false).2
    (by norm_num [swap, swap_x_for_y, findNextTick, fntLoop, mA, dkeys])

/-- C3 counterexample: `add_liquidity` with negative liquidity (-5),
boundaries not aligned to the tick spacing 100, and lower (7) greater
than upper (3) succeeds normally and mutates the pool (a position is
created) instead of failing with InvalidArgument and leaving the state
unchanged. -/
theorem c3_counterexample :
    (add_liquidity sqrtFn0 mA ("o") (-5) 7 3).1 = .ok 0 ∧
    (add_liquidity sqrtFn0 mA ("o") (-5) 7 3).2.pair.positions ≠ [] := by
  norm_num [add_liquidity, mA, dget, ensureTickLower, ensureTickUpper, fee_growth_outside,
    Heap.alloc, Heap.empty, dset, fee_within_range, Heap.getD, add_liquidity_tail,
    sortTicks, insortTick, liquidity_to_tokens, sqrtFn0]

/-- C3 amended: the engine performs no argument validation at all and has
no InvalidArgument error.  In particular `add_liquidity` for a fresh
position key with fresh boundary ticks returns normally for every
liquidity amount (including non-positive ones) and every pair of tick
indices (aligned or not, ordered or not); the only side conditions are
the genuine runtime ones (distinct boundaries and a nonzero divisor in
`liquidity_to_tokens`).  `remove_liquidity` similarly subtracts whatever
amount it is given, and `swap` treats every unknown `token_in_addr` as
the y-for-x direction instead of rejecting it. -/
theorem c3_no_validation (sqrtFn : Int → ℚ) (m : Machine) (owner : String) (L : ℚ)
    (lo hi : Int)
    (hpos : dget m.pair.positions (owner, lo, hi) = none)
    (hlo : dget m.pair.ticks lo = none)
    (hhi : dget m.pair.ticks hi = none)
    (hne : lo ≠ hi)
    (hdiv : sqrtFn hi * m.pair.curr_sqrt_price ≠ 0) :
    (add_liquidity sqrtFn m owner L lo hi).1.isOk = true := by
  unfold add_liquidity
  split
  case isTrue hin =>
    simp only [hpos, hlo, hhi]
    simp only [ensureTickLower, ensureTickUpper, hlo, hpos]
    simp only [dget_dset_ne _ _ (Ne.symm hne), hhi]
    simp only [Heap.alloc]
    simp only [dget_dset_ne _ _ hne, dget_dset_self, hpos]
    simp only [add_liquidity_tail, liquidity_to_tokens]
    rw [if_neg hdiv]
    rfl
  case isFalse hin =>
    simp only [hpos, hlo, hhi]
    simp only [ensureTickLower, ensureTickUpper, hlo, hpos]
    simp only [dget_dset_ne _ _ (Ne.symm hne), hhi]
    simp only [Heap.alloc]
    simp only [dget_dset_ne _ _ hne, dget_dset_self, hpos]
    simp only [add_liquidity_tail, liquidity_to_tokens]
    rw [if_neg hdiv]
    rfl

/-- Witness for the amended C3: the invalid call of `c3_counterexample`
satisfies the fresh-key hypotheses and indeed returns normally. -/
theorem c3_witness : (add_liquidity sqrtFn0 mA ("o") (-5) 7 3).1.isOk = true :=
  c3_no_validation sqrtFn0 mA ("o") (-5) 7 3 rfl rfl rfl (by decide)
    (by norm_num [mA, sqrtFn0])

theorem Position.default_fees_x : (default : Position).fees_x = 0 := rfl

theorem Position.default_fees_y : (default : Position).fees_y = 0 := rfl

theorem dget_hmod {α : Type} (l : List (Nat × α)) (r : Nat) (f : α → α) (k : Nat) :
    dget (hmod l r f) k = if k = r then (dget l k).map f else dget l k := by
  induction l with
  | nil => simp [hmod, dget]
  | cons p t ih =>
    obtain ⟨a, b⟩ := p
    by_cases ha : a = r
    · subst ha
      by_cases hk : a = k
      · subst hk
        simp [hmod, dget]
      · simp [hmod, dget, hk, ih]
    · by_cases hk : a = k
      · subst hk
        simp [hmod, dget, Ne.symm ha, ha]
      · simp [hmod, dget, ha, hk, ih]

theorem Heap.getD_modify_self_or_default {α : Type} [Inhabited α] (h : Heap α) (r : Nat)
    (f : α → α) :
    (h.modify r f).getD r = f (h.getD r) ∨
      ((h.modify r f).getD r = default ∧ h.getD r = default) := by
  unfold Heap.modify Heap.getD
  simp only [dget_hmod, if_pos rfl]
  cases dget h.cells r <;> simp

/-- Frame of `collect_fees`: it mutates only the Position heap (the pool
attributes and the Tick objects are read, never written). -/
theorem collect_fees_frame (m : Machine) (pr : Nat) :
    (collect_fees m pr).2.pair = m.pair ∧ (collect_fees m pr).2.tickHeap = m.tickHeap := by
  simp only [collect_fees]
  split <;> simp

/-- C10: a successful `withdraw_fees` subtracts exactly the returned pair
from the token balances, zeroes the position's pending fees, and leaves
the current sqrt price, current tick, pool liquidity, both tick maps, the
Tick heap and the global fee-growth counters unchanged. -/
theorem c10_withdraw_frame (m m' : Machine) (pr : Nat) (fx fy : ℚ)
    (h : withdraw_fees m pr = (.ok (fx, fy), m')) :
    m'.pair.token_x_balance = m.pair.token_x_balance - fx ∧
    m'.pair.token_y_balance = m.pair.token_y_balance - fy ∧
    (m'.posHeap.getD pr).fees_x = 0 ∧
    (m'.posHeap.getD pr).fees_y = 0 ∧
    m'.pair.curr_sqrt_price = m.pair.curr_sqrt_price ∧
    m'.pair.curr_tick_idx = m.pair.curr_tick_idx ∧
    m'.pair.liquidity = m.pair.liquidity ∧
    m'.pair.ticks = m.pair.ticks ∧
    m'.pair.all_ticks = m.pair.all_ticks ∧
    m'.tickHeap = m.tickHeap ∧
    m'.pair.fee_growth_global_x = m.pair.fee_growth_global_x ∧
    m'.pair.fee_growth_global_y = m.pair.fee_growth_global_y := by
  have hframe := collect_fees_frame m pr
  unfold withdraw_fees at h
  rcases hc : collect_fees m pr with ⟨rc, m1⟩
  rw [hc] at h hframe
  obtain ⟨hfp, hft⟩ := hframe
  simp only at hfp hft
  cases rc with
  | exc e => simp at h
  | out => simp at h
  | ok v =>
    simp only at h
    split at h
    · simp at h
    · simp at h
    · rename_i a3 m3 heq
      simp only [Prod.mk.injEq, PRes.ok.injEq] at h
      obtain ⟨⟨hfx, hfy⟩, hm⟩ := h
      subst hm
      subst hfx
      subst hfy
      have hmain : m3.posHeap = m1.posHeap.modify pr
            (fun p => { p with fees_x := 0, fees_y := 0 }) ∧
          m3.pair.token_x_balance = m.pair.token_x_balance ∧
          m3.pair.token_y_balance = m.pair.token_y_balance ∧
          m3.pair.curr_sqrt_price = m.pair.curr_sqrt_price ∧
          m3.pair.curr_tick_idx = m.pair.curr_tick_idx ∧
          m3.pair.liquidity = m.pair.liquidity ∧
          m3.pair.ticks = m.pair.ticks ∧
          m3.pair.all_ticks = m.pair.all_ticks ∧
          m3.tickHeap = m.tickHeap ∧
          m3.pair.fee_growth_global_x = m.pair.fee_growth_global_x ∧
          m3.pair.fee_growth_global_y = m.pair.fee_growth_global_y := by
        split at heq
        · split at heq
          · simp at heq
          · simp only [Prod.mk.injEq, PRes.ok.injEq] at heq
            obtain ⟨hu, hm3⟩ := heq
            subst hm3
            simp [hfp, hft, ddel]
        · simp only [Prod.mk.injEq, PRes.ok.injEq] at heq
          obtain ⟨hu, hm3⟩ := heq
          subst hm3
          simp [hfp, hft]
      obtain ⟨hph, hb1, hb2, hc1, hc2, hc3, hc4, hc5, hc6, hc7, hc8⟩ := hmain
      refine ⟨by simp [hb1], by simp [hb2], ?_, ?_, by simp [hc1], by simp [hc2],
        by simp [hc3], by simp [hc4], by simp [hc5], by simp [hc6], by simp [hc7],
        by simp [hc8]⟩
      · rw [show (Machine.mk _ m3.tickHeap m3.posHeap).posHeap = m3.posHeap from rfl, hph]
        rcases Heap.getD_modify_self_or_default m1.posHeap pr
          (fun p => { p with fees_x := 0, fees_y := 0 }) with hcase | ⟨hcase, _⟩ <;>
          simp [hcase, Position.default_fees_x, Position.default_fees_y]
      · rw [show (Machine.mk _ m3.tickHeap m3.posHeap).posHeap = m3.posHeap from rfl, hph]
        rcases Heap.getD_modify_self_or_default m1.posHeap pr
          (fun p => { p with fees_x := 0, fees_y := 0 }) with hcase | ⟨hcase, _⟩ <;>
          simp [hcase, Position.default_fees_x, Position.default_fees_y]

/-- Pool with one position of liquidity 10 on [0, 3000000), no fees
accrued; used as the `withdraw_fees` witness state. -/
def mB : Machine :=
  { pair :=
      { token_x := "x"
        token_y := "y"
        liquidity := 10
        init_sqrt_price := 3/2
        fee_tier := 0
        tick_spacing := 100
        curr_sqrt_price := 3/2
        curr_tick_idx := 1250000
        ticks := [(0, 0), (3000000, 1)]
        all_ticks := [(0, 0), (3000000, 1)]
        positions := [(("o", 0, 3000000), 0)]
        fee_growth_global_x := 0
        fee_growth_global_y := 0
        token_x_balance := 0
        token_y_balance := 0 }
    tickHeap := ⟨2, [(1, ⟨3000000, -10, 10, 0, 0⟩), (0, ⟨0, 10, 10, 0, 0⟩)]⟩
    posHeap := ⟨1, [(0, ⟨"o", 10, 0, 1, 0, 0, 0, 0⟩)]⟩ }

/-- Witness for C10 on the concrete pool `mB`. -/
theorem c10_witness :
    (withdraw_fees mB 0).2.pair.liquidity = mB.pair.liquidity ∧
    ((withdraw_fees mB 0).2.posHeap.getD 0).fees_x = 0 := by
  have h1 : (withdraw_fees mB 0).1 = .ok (0, 0) := by
    norm_num [withdraw_fees, collect_fees, mB, dget, Heap.getD, fee_within_range,
      Heap.modify, hmod]
  have h : withdraw_fees mB 0 = (.ok (0, 0), (withdraw_fees mB 0).2) := by
    rw [← h1]
  have hall := c10_withdraw_frame mB (withdraw_fees mB 0).2 0 0 0 h
  exact ⟨hall.2.2.2.2.2.2.1, hall.2.2.1⟩

/-- Pool poised exactly one cell above tick 0: active ticks 0 (with
liquidity_net 60 and fee_growth_outside_x 5) and 3000000, pool liquidity
100, current sqrt price 2, fee_growth_global_x 7, zero fee tier. -/
def mC : Machine :=
  { pair :=
      { token_x := "x"
        token_y := "y"
        liquidity := 100
        init_sqrt_price := 2
        fee_tier := 0
        tick_spacing := 100
        curr_sqrt_price := 2
        curr_tick_idx := 3000000
        ticks := [(0, 0), (3000000, 1)]
        all_ticks := [(0, 0), (3000000, 1)]
        positions := []
        fee_growth_global_x := 7
        fee_growth_global_y := 0
        token_x_balance := 0
        token_y_balance := 0 }
    tickHeap := ⟨2, [(1, ⟨3000000, -60, 60, 0, 0⟩), (0, ⟨0, 60, 60, 5, 0⟩)]⟩
    posHeap := ⟨0, []⟩ }

/-- C6 counterexample: swapping 50 X into `mC` pushes the sqrt price to
exactly the boundary sqrt price of tick 0 (the target, `sqrtFn0 0 = 1`),
yet the boundary is not crossed: the pool liquidity stays 100 instead of
being reduced by the tick's liquidity_net (60), and the tick's
fee_growth_outside_x stays 5 instead of flipping to global − outside = 2.
The `updated_sqrt_price >= lower_tick_sqrt_price` branch treats exact
equality as staying within the cell. -/
theorem c6_counterexample :
    (swap_x_for_y sqrtFn0 1 mC 50 0).1 = .ok 100 ∧
    (swap_x_for_y sqrtFn0 1 mC 50 0).2.pair.curr_sqrt_price = sqrtFn0 0 ∧
    (swap_x_for_y sqrtFn0 1 mC 50 0).2.pair.liquidity ≠
      mC.pair.liquidity - (mC.tickHeap.getD 0).liquidity_net ∧
    ((swap_x_for_y sqrtFn0 1 mC 50 0).2.tickHeap.getD 0).fee_growth_outside_x ≠
      mC.pair.fee_growth_global_x - (mC.tickHeap.getD 0).fee_growth_outside_x := by
  refine ⟨?_, ?_, ?_, ?_⟩ <;>
    norm_num [swap_x_for_y, swapXLoop, findNextTick, fntLoop, idxOfInt, pyListGet,
      mC, dkeys, deduct_fees, pyInt, sqrtFn0, sqrt_price_to_tick, priceToTick,
      Heap.getD, dget, Except.map]

/-- C6 amended: when the tentative new sqrt price of an x-for-y iteration
is exactly the target boundary sqrt price, the `>=` comparison takes the
within-cell branch: no tick record is touched (the Tick heap is
unchanged, so no fee_growth_outside flip) and the pool liquidity is not
adjusted by any liquidity_net.  A crossing happens only when the
tentative price strictly passes the boundary. -/
theorem c6_equality_stays_within (sqrtFn : Int → ℚ) (limit : ℚ) (fuel : Nat)
    (m : Machine) (rem out : ℚ) (nt : Int) (tgt : ℚ)
    (hrem : rem > 0) (hL : ¬m.pair.liquidity = 0) (hc : ¬m.pair.curr_sqrt_price = 0)
    (hinv : ¬(1 / m.pair.curr_sqrt_price +
      (rem - (pyInt (rem * m.pair.fee_tier) : ℚ)) / m.pair.liquidity) = 0)
    (heq : 1 / (1 / m.pair.curr_sqrt_price +
      (rem - (pyInt (rem * m.pair.fee_tier) : ℚ)) / m.pair.liquidity) = tgt) :
    (swapXLoop sqrtFn limit (fuel+1) m rem out nt tgt).2.tickHeap = m.tickHeap ∧
    (swapXLoop sqrtFn limit (fuel+1) m rem out nt tgt).2.pair.liquidity =
      m.pair.liquidity := by
  refine ⟨?_, ?_⟩ <;>
  · simp only [swapXLoop, deduct_fees]
    rw [if_neg (not_not_intro hrem), if_neg hL, if_neg hc, if_neg hinv, if_pos heq.ge]
    split
    · rfl
    · split
      · rfl
      · rfl

/-- Witness for the amended C6 at the exact-boundary scenario of `mC`. -/
theorem c6_witness :
    (swapXLoop sqrtFn0 0 1 mC 50 0 0 1).2.tickHeap = mC.tickHeap ∧
    (swapXLoop sqrtFn0 0 1 mC 50 0 0 1).2.pair.liquidity = mC.pair.liquidity :=
  c6_equality_stays_within sqrtFn0 0 0 mC 50 0 0 1 (by norm_num)
    (by norm_num [mC]) (by norm_num [mC]) (by norm_num [mC, pyInt])
    (by norm_num [mC, pyInt])

/-- Freshly constructed pool `Pair("x", "y", 3/2, 1/2, 100)` (fee tier
one half), before the invalid liquidity addition of the C8 scenario. -/
def mD : Machine :=
  { pair :=
      { token_x := "x"
        token_y := "y"
        liquidity := 0
        init_sqrt_price := 3/2
        fee_tier := 1/2
        tick_spacing := 100
        curr_sqrt_price := 3/2
        curr_tick_idx := 1250000
        ticks := []
        all_ticks := []
        positions := []
        fee_growth_global_x := 0
        fee_growth_global_y := 0
        token_x_balance := 0
        token_y_balance := 0 }
    tickHeap := Heap.empty
    posHeap := Heap.empty }

/-- State of `mD` after `add_liquidity("o", -100, 0, 3000000)`: the
unvalidated negative amount leaves the pool with active liquidity -100. -/
def c8m1 : Machine :=
  { pair :=
      { token_x := "x"
        token_y := "y"
        liquidity := -100
        init_sqrt_price := 3/2
        fee_tier := 1/2
        tick_spacing := 100
        curr_sqrt_price := 3/2
        curr_tick_idx := 1250000
        ticks := [(0, 0), (3000000, 1)]
        all_ticks := [(0, 0), (3000000, 1)]
        positions := [(("o", 0, 3000000), 0)]
        fee_growth_global_x := 0
        fee_growth_global_y := 0
        token_x_balance := 0
        token_y_balance := 0 }
    tickHeap := ⟨2, [(1, ⟨3000000, 100, -100, 0, 0⟩), (0, ⟨0, -100, -100, 0, 0⟩)]⟩
    posHeap := ⟨1, [(0, ⟨"o", -100, 0, 1, 0, 0, 0, 0⟩)]⟩ }

/-- C8 counterexample: the operation sequence add_liquidity(-100, 0,
3000000); swap(x, 50, 0) on a fresh pool — non-negative swap amount, fee
tier 1/2 ∈ [0,1) — completes normally and drives fee_growth_global_x
from 0 to -1/4: the swap divides the fee by the (negative, unvalidated)
pool liquidity. -/
theorem c8_counterexample :
    add_liquidity sqrtFn0 mD ("o") (-100) 0 3000000 = (.ok 0, c8m1) ∧
    c8m1.pair.fee_growth_global_x = 0 ∧
    (swap sqrtFn0 1 c8m1 ("x") 50 0 false).1 = .ok (some 90) ∧
    (swap sqrtFn0 1 c8m1 ("x") 50 0 false).2.pair.fee_growth_global_x < 0 := by
  refine ⟨?_, rfl, ?_, ?_⟩
  · norm_num [add_liquidity, mD, c8m1, dget, ensureTickLower, ensureTickUpper,
      fee_growth_outside, Heap.alloc, Heap.empty, dset, fee_within_range, Heap.getD,
      add_liquidity_tail, sortTicks, insortTick, liquidity_to_tokens, sqrtFn0]
  · norm_num [swap, swap_x_for_y, swapXLoop, findNextTick, fntLoop, idxOfInt,
      pyListGet, c8m1, dkeys, deduct_fees, pyInt, sqrtFn0, sqrt_price_to_tick,
      priceToTick, searchFrom, pyRound, Heap.getD, dget, Except.map]
  · norm_num [swap, swap_x_for_y, swapXLoop, findNextTick, fntLoop, idxOfInt,
      pyListGet, c8m1, dkeys, deduct_fees, pyInt, sqrtFn0, sqrt_price_to_tick,
      priceToTick, searchFrom, pyRound, Heap.getD, dget, Except.map]

/-- C8 amended: each swap iteration accrues `fees_deducted / liquidity`
to the global fee-growth counter, so the counters cannot decrease as long
as the pool liquidity is positive at the accrual: a within-cell x-for-y
iteration (and symmetrically y-for-x) from positive liquidity, positive
remaining amount and fee tier ≥ 0 never decreases fee_growth_global_x
(resp. _y).  The unrestricted claim fails because unvalidated
add_liquidity/remove_liquidity can make the pool liquidity negative. -/
theorem c8_step_monotone (sqrtFn : Int → ℚ) (limit : ℚ) (fuel : Nat) (m : Machine)
    (rem out : ℚ) (nt : Int) (tgt : ℚ) (hL : 0 < m.pair.liquidity)
    (hft : 0 ≤ m.pair.fee_tier) (hrem : 0 < rem) (hc : ¬m.pair.curr_sqrt_price = 0) :
    (¬(1 / m.pair.curr_sqrt_price +
        (rem - (pyInt (rem * m.pair.fee_tier) : ℚ)) / m.pair.liquidity) = 0 →
      1 / (1 / m.pair.curr_sqrt_price +
        (rem - (pyInt (rem * m.pair.fee_tier) : ℚ)) / m.pair.liquidity) ≥ tgt →
      m.pair.fee_growth_global_x ≤
        (swapXLoop sqrtFn limit (fuel+1) m rem out nt tgt).2.pair.fee_growth_global_x) ∧
    (m.pair.curr_sqrt_price + (rem - (pyInt (rem * m.pair.fee_tier) : ℚ)) /
        m.pair.liquidity ≤ tgt →
      m.pair.fee_growth_global_y ≤
        (swapYLoop sqrtFn limit (fuel+1) m rem out nt tgt).2.pair.fee_growth_global_y) := by
  have hfee : (0:ℚ) ≤ (pyInt (rem * m.pair.fee_tier) : ℚ) / m.pair.liquidity := by
    apply div_nonneg _ hL.le
    exact_mod_cast pyInt_nonneg (mul_nonneg hrem.le hft)
  constructor
  · intro hinv hge
    simp only [swapXLoop, deduct_fees]
    rw [if_neg (not_not_intro hrem), if_neg (ne_of_gt hL), if_neg hc, if_neg hinv,
      if_pos hge]
    split
    · exact le_add_of_nonneg_right hfee
    · split
      · exact le_add_of_nonneg_right hfee
      · exact le_add_of_nonneg_right hfee
  · intro hle
    simp only [swapYLoop, deduct_fees]
    rw [if_neg (not_not_intro hrem), if_neg (ne_of_gt hL), if_pos hle]
    split
    · exact le_refl _
    · split
      · exact le_refl _
      · split
        · exact le_add_of_nonneg_right hfee
        · split
          · exact le_add_of_nonneg_right hfee
          · exact le_add_of_nonneg_right hfee

/-- Witness for the amended C8: a concrete within-cell x iteration and a
concrete within-cell y iteration on `mC`, each leaving the corresponding
global fee-growth counter no smaller. -/
theorem c8_witness :
    mC.pair.fee_growth_global_x ≤
      (swapXLoop sqrtFn0 0 1 mC 50 0 0 1).2.pair.fee_growth_global_x ∧
    mC.pair.fee_growth_global_y ≤
      (swapYLoop sqrtFn0 0 1 mC 50 0 0 3).2.pair.fee_growth_global_y :=
  ⟨(c8_step_monotone sqrtFn0 0 0 mC 50 0 0 1 (by norm_num [mC]) (by norm_num [mC])
      (by norm_num) (by norm_num [mC])).1 (by norm_num [mC, pyInt])
      (by norm_num [mC, pyInt]),
   (c8_step_monotone sqrtFn0 0 0 mC 50 0 0 3 (by norm_num [mC]) (by norm_num [mC])
      (by norm_num) (by norm_num [mC])).2 (by norm_num [mC, pyInt])⟩

/-- Pool with three active ticks -7500000, 0, 3000000 (sqrt prices 1/2,
1, 2), pool liquidity 100, current sqrt price 3/2, fee_growth_global_x 7;
tick 0 carries fee_growth_outside_x 5 and liquidity_net 60. -/
def mE : Machine :=
  { pair :=
      { token_x := "x"
        token_y := "y"
        liquidity := 100
        init_sqrt_price := 3/2
        fee_tier := 0
        tick_spacing := 100
        curr_sqrt_price := 3/2
        curr_tick_idx := 1250000
        ticks := [(-7500000, 2), (0, 0), (3000000, 1)]
        all_ticks := [(-7500000, 2), (0, 0), (3000000, 1)]
        positions := []
        fee_growth_global_x := 7
        fee_growth_global_y := 0
        token_x_balance := 0
        token_y_balance := 0 }
    tickHeap := ⟨3, [(2, ⟨-7500000, 40, 40, 0, 0⟩), (1, ⟨3000000, -100, 100, 0, 0⟩),
      (0, ⟨0, 60, 60, 5, 0⟩)]⟩
    posHeap := ⟨0, []⟩ }

set_option maxHeartbeats 2000000 in
/-- C2 refuted on the code (its own documentation and the spec mandate a
full restore): a simulated swap of 50 X on `mE` crosses tick 0, completes
and restores the `Pair` record (`__dict__`) from the shallow snapshot,
yet the Tick object for tick 0 — still referenced by the restored
`ticks`/`all_ticks` dicts — keeps its flipped `fee_growth_outside_x`
value 2 (global 7 − outside 5) instead of its pre-call value 5: the
shallow `__dict__.copy()` snapshot does not restore mutated Tick
records. -/
theorem c2_tick_flip_survives_simulate :
    (swap sqrtFn0 3 mE ("x") 50 0 true).1 = .ok (some 61) ∧
    (swap sqrtFn0 3 mE ("x") 50 0 true).2.pair = mE.pair ∧
    ((swap sqrtFn0 3 mE ("x") 50 0 true).2.tickHeap.getD 0).fee_growth_outside_x = 2 ∧
    ((swap sqrtFn0 3 mE ("x") 50 0 true).2.tickHeap.getD 0).fee_growth_outside_x ≠
      (mE.tickHeap.getD 0).fee_growth_outside_x := by
  have hmain : (swap sqrtFn0 3 mE ("x") 50 0 true).1 = .ok (some 61) ∧
      (swap sqrtFn0 3 mE ("x") 50 0 true).2.pair = mE.pair ∧
      ((swap sqrtFn0 3 mE ("x") 50 0 true).2.tickHeap.getD 0).fee_growth_outside_x
        = 2 := by
    refine ⟨?_, ?_, ?_⟩ <;>
      norm_num [swap, swap_x_for_y, swapXLoop, findNextTick, fntLoop, idxOfInt,
        pyListGet, mE, dkeys, deduct_fees, add_fees, pyInt, sqrtFn0,
        sqrt_price_to_tick, priceToTick, searchFrom, pyRound, fee_growth_outside,
        Heap.getD, Heap.modify, hmod, dget, Except.map]
  refine ⟨hmain.1, hmain.2.1, hmain.2.2, ?_⟩
  rw [hmain.2.2]
  norm_num [mE, Heap.getD, dget]

theorem ten_zpow_pos (a : ℤ) : (0:ℚ) < 10 ^ a := zpow_pos (by norm_num) a

theorem ten_zpow_lt {a b : ℤ} (h : a < b) : (10:ℚ) ^ a < 10 ^ b :=
  zpow_lt_zpow_right₀ (by norm_num) h

theorem ten_zpow_le {a b : ℤ} (h : a ≤ b) : (10:ℚ) ^ a ≤ 10 ^ b :=
  zpow_le_zpow_right₀ (by norm_num) h

theorem ten_zpow_mul (a b : ℤ) : (10:ℚ) ^ a * 10 ^ b = 10 ^ (a + b) :=
  (zpow_add₀ (by norm_num) a b).symm

theorem priceToTick_pos_general (k : Nat) (r : Int) (hk : k ≤ 48) (hr0 : 0 < r)
    (hr1 : r ≤ 9000000) :
    priceToTick ((10:ℚ) ^ (k:ℤ) + (r:ℚ) * 10 ^ ((k:ℤ) - 6)) =
      .ok ((k:ℤ) * 9000000 + r) := by
  set P : ℚ := (10:ℚ) ^ (k:ℤ) + (r:ℚ) * 10 ^ ((k:ℤ) - 6) with hP
  have hrpos : (0:ℚ) < (r:ℚ) := by exact_mod_cast hr0
  have hlow : (10:ℚ) ^ (k:ℤ) < P := by
    have := mul_pos hrpos (ten_zpow_pos ((k:ℤ) - 6))
    rw [hP]
    linarith
  have hhigh : P ≤ 10 ^ ((k:ℤ) + 1) := by
    have h1 : (r:ℚ) * 10 ^ ((k:ℤ) - 6) ≤ 9000000 * 10 ^ ((k:ℤ) - 6) := by
      apply mul_le_mul_of_nonneg_right _ (ten_zpow_pos _).le
      exact_mod_cast hr1
    have h2 : (9000000:ℚ) * 10 ^ ((k:ℤ) - 6) = 9 * 10 ^ (k:ℤ) := by
      have h9 : (9000000:ℚ) = 9 * 10 ^ (6:ℤ) := by norm_num
      rw [h9, mul_assoc, ten_zpow_mul]
      norm_num
    have h3 : (10:ℚ) ^ ((k:ℤ) + 1) = 10 * 10 ^ (k:ℤ) := by
      rw [add_comm, ← ten_zpow_mul]
      norm_num
    rw [h3]
    rw [h2] at h1
    rw [hP]
    linarith
  have hone : (1:ℚ) ≤ 10 ^ (k:ℤ) := by
    have h0 : (10:ℚ) ^ (0:ℤ) ≤ 10 ^ (k:ℤ) := ten_zpow_le (by omega)
    simpa using h0
  have hP1 : 1 < P := lt_of_le_of_lt hone hlow
  have hPne : ¬P = 1 := by linarith
  have hs : searchFrom
      (fun i => decide ((10:ℚ) ^ (i : Int) < P ∧ P ≤ (10:ℚ) ^ ((i : Int) + 1)))
      0 49 = .ok k := by
    apply searchFrom_ok (by omega) (by omega)
    · simp only [decide_eq_true_eq]
      exact ⟨hlow, hhigh⟩
    · intro j hj0 hjk
      simp only [decide_eq_false_iff_not, not_and, not_le]
      intro _
      calc (10:ℚ) ^ ((j:ℤ) + 1) ≤ 10 ^ (k:ℤ) := ten_zpow_le (by omega)
        _ < P := hlow
  unfold priceToTick
  rw [if_neg hPne, if_pos hP1, hs]
  have hsne : ((10:ℚ) ^ ((k:ℤ) - 6)) ≠ 0 := (ten_zpow_pos _).ne'
  have hnum : P - 10 ^ (k:ℤ) = (r:ℚ) * 10 ^ ((k:ℤ) - 6) := by
    rw [hP]
    ring
  have hdiv : (P - 10 ^ (k:ℤ)) / 10 ^ ((k:ℤ) - 6) = (r:ℚ) := by
    rw [hnum, mul_div_assoc, div_self hsne, mul_one]
  simp only [hdiv, pyRound_intCast]

theorem priceToTick_pos_exact (k : Nat) (hk1 : 1 ≤ k) (hk : k ≤ 49) :
    priceToTick ((10:ℚ) ^ (k:ℤ)) = .ok ((k:ℤ) * 9000000) := by
  have hc : (((k - 1 : ℕ)):ℤ) = (k:ℤ) - 1 := by omega
  have heq : (10:ℚ) ^ (k:ℤ) =
      (10:ℚ) ^ (((k - 1 : ℕ)):ℤ) + ((9000000:ℤ):ℚ) * 10 ^ ((((k - 1 : ℕ)):ℤ) - 6) := by
    rw [hc]
    have h1 : ((9000000:ℤ):ℚ) = 9 * 10 ^ (6:ℤ) := by norm_num
    rw [h1, mul_assoc, ten_zpow_mul]
    have h2 : (6:ℤ) + ((k:ℤ) - 1 - 6) = (k:ℤ) - 1 := by ring
    rw [h2]
    have h3 : (10:ℚ) ^ (k:ℤ) = 10 ^ (1 + ((k:ℤ) - 1)) := by
      congr 1
      ring
    rw [h3, ← ten_zpow_mul, zpow_one]
    ring
  rw [heq, priceToTick_pos_general (k-1) 9000000 (by omega) (by norm_num) le_rfl]
  have hfin : (((k - 1 : ℕ)):ℤ) * 9000000 + 9000000 = (k:ℤ) * 9000000 := by
    rw [hc]
    ring
  rw [hfin]

theorem priceToTick_neg_general (k : Nat) (r : Int) (hk : k ≤ 48) (hr0 : 0 < r)
    (hr1 : r ≤ 9000000) :
    priceToTick ((10:ℚ) ^ (-(k:ℤ)) - (r:ℚ) * 10 ^ (-(k:ℤ) - 7)) =
      .ok (-(k:ℤ) * 9000000 - r) := by
  set P : ℚ := (10:ℚ) ^ (-(k:ℤ)) - (r:ℚ) * 10 ^ (-(k:ℤ) - 7) with hP
  have hrpos : (0:ℚ) < (r:ℚ) := by exact_mod_cast hr0
  have hup : P < (10:ℚ) ^ (-(k:ℤ)) := by
    have := mul_pos hrpos (ten_zpow_pos (-(k:ℤ) - 7))
    rw [hP]
    linarith
  have hdown : (10:ℚ) ^ (-(k:ℤ) - 1) ≤ P := by
    have h1 : (r:ℚ) * 10 ^ (-(k:ℤ) - 7) ≤ 9000000 * 10 ^ (-(k:ℤ) - 7) := by
      apply mul_le_mul_of_nonneg_right _ (ten_zpow_pos _).le
      exact_mod_cast hr1
    have h2 : (9000000:ℚ) * 10 ^ (-(k:ℤ) - 7) = 9 * 10 ^ (-(k:ℤ) - 1) := by
      have h9 : (9000000:ℚ) = 9 * 10 ^ (6:ℤ) := by norm_num
      rw [h9, mul_assoc, ten_zpow_mul]
      have h6 : (6:ℤ) + (-(k:ℤ) - 7) = -(k:ℤ) - 1 := by ring
      rw [h6]
    have h3 : (10:ℚ) ^ (-(k:ℤ)) = 10 * 10 ^ (-(k:ℤ) - 1) := by
      have h4 : (10:ℚ) ^ (-(k:ℤ)) = 10 ^ (1 + (-(k:ℤ) - 1)) := by
        congr 1
        ring
      rw [h4, ← ten_zpow_mul, zpow_one]
    rw [h2] at h1
    rw [hP, h3]
    linarith
  have hple : P < 1 := by
    have h0 : (10:ℚ) ^ (-(k:ℤ)) ≤ 10 ^ (0:ℤ) := ten_zpow_le (by omega)
    simp only [zpow_zero] at h0
    linarith
  have hPne : ¬P = 1 := by linarith
  have hPng : ¬P > 1 := by linarith
  have hs : searchFrom
      (fun i => decide (P < (10:ℚ) ^ (-(i : Int)) ∧
        (10:ℚ) ^ (-((i : Int) + 1)) ≤ P))
      0 49 = .ok k := by
    apply searchFrom_ok (by omega) (by omega)
    · simp only [decide_eq_true_eq]
      refine ⟨hup, ?_⟩
      have hce : -((k:ℤ) + 1) = -(k:ℤ) - 1 := by ring
      rw [hce]
      exact hdown
    · intro j hj0 hjk
      simp only [decide_eq_false_iff_not, not_and, not_le]
      intro _
      calc P < (10:ℚ) ^ (-(k:ℤ)) := hup
        _ ≤ 10 ^ (-((j:ℤ) + 1)) := ten_zpow_le (by omega)
  unfold priceToTick
  rw [if_neg hPne, if_neg hPng, hs]
  have hsne : ((10:ℚ) ^ (-(k:ℤ) - 7)) ≠ 0 := (ten_zpow_pos _).ne'
  have hnum : (10:ℚ) ^ (-(k:ℤ)) - P = (r:ℚ) * 10 ^ (-(k:ℤ) - 7) := by
    rw [hP]
    ring
  have hdiv : ((10:ℚ) ^ (-(k:ℤ)) - P) / 10 ^ (-(k:ℤ) - 7) = (r:ℚ) := by
    rw [hnum, mul_div_assoc, div_self hsne, mul_one]
  simp only [hdiv, pyRound_intCast]

theorem priceToTick_neg_exact (k : Nat) (hk1 : 1 ≤ k) (hk : k ≤ 49) :
    priceToTick ((10:ℚ) ^ (-(k:ℤ))) = .ok (-(k:ℤ) * 9000000) := by
  have hc : (((k - 1 : ℕ)):ℤ) = (k:ℤ) - 1 := by omega
  have heq : (10:ℚ) ^ (-(k:ℤ)) =
      (10:ℚ) ^ (-(((k - 1 : ℕ)):ℤ)) -
        ((9000000:ℤ):ℚ) * 10 ^ (-(((k - 1 : ℕ)):ℤ) - 7) := by
    rw [hc]
    have h1 : ((9000000:ℤ):ℚ) = 9 * 10 ^ (6:ℤ) := by norm_num
    rw [h1, mul_assoc, ten_zpow_mul]
    have h2 : (6:ℤ) + (-((k:ℤ) - 1) - 7) = -(k:ℤ) := by ring
    rw [h2]
    have h3 : (10:ℚ) ^ (-((k:ℤ) - 1)) = 10 * 10 ^ (-(k:ℤ)) := by
      have h4 : (10:ℚ) ^ (-((k:ℤ) - 1)) = 10 ^ (1 + -(k:ℤ)) := by
        congr 1
        ring
      rw [h4, ← ten_zpow_mul, zpow_one]
    rw [h3]
    ring
  rw [heq, priceToTick_neg_general (k-1) 9000000 (by omega) (by norm_num) le_rfl]
  have hfin : -(((k - 1 : ℕ)):ℤ) * 9000000 - 9000000 = -(k:ℤ) * 9000000 := by
    rw [hc]
    ring
  rw [hfin]

/-- C7 amended: in exact arithmetic the tick-price-tick round trip
`sqrt_price_to_tick(first(tick_to_sqrt_price(t))) = t` holds for every
integer t with |t| ≤ 441000000 = 49·std_increment_distance, the range
covered by the 50-entry price-level table; squaring the exact square root
returns the exact price, so the composition is `priceToTick ∘
tickToPrice`. -/
theorem c7_roundtrip_in_range (t : Int) (hlo : -441000000 ≤ t) (hhi : t ≤ 441000000) :
    priceToTick (tickToPrice t) = .ok t := by
  rcases lt_trichotomy t 0 with hneg | rfl | hpos
  · have habs : (t.natAbs : ℤ) = -t := by omega
    set k : Nat := t.natAbs / 9000000 with hkdef
    set r : Int := -t - (k:ℤ) * 9000000 with hrdef
    have hdm := Nat.div_add_mod t.natAbs 9000000
    have hmod : t.natAbs % 9000000 < 9000000 := Nat.mod_lt _ (by norm_num)
    have hkeq : (9000000:ℤ) * (k:ℤ) + ((t.natAbs % 9000000 : ℕ):ℤ) = -t := by
      rw [← habs]
      exact_mod_cast hdm
    have hr0 : 0 ≤ r := by omega
    have hr1 : r < 9000000 := by omega
    have hform : tickToPrice t = (10:ℚ) ^ (-(k:ℤ)) - (r:ℚ) * 10 ^ (-(k:ℤ) - 7) := by
      simp only [tickToPrice]
      rw [← hkdef, if_neg (by omega : ¬t > 0)]
      have hexp : (-6 : ℤ) - ((k:ℤ) + 1) = -(k:ℤ) - 7 := by ring
      rw [hexp]
      have hcoef : -(t:ℚ) - ((k:ℕ):ℚ) * 9000000 = ((r:ℤ):ℚ) := by
        rw [hrdef]
        push_cast
        ring
      rw [hcoef]
    rcases eq_or_lt_of_le hr0 with hr00 | hrpos
    · have hk1 : 1 ≤ k := by omega
      have hk49 : k ≤ 49 := by omega
      have hform2 : tickToPrice t = (10:ℚ) ^ (-(k:ℤ)) := by
        rw [hform, ← hr00]
        push_cast
        ring
      rw [hform2, priceToTick_neg_exact k hk1 hk49]
      have hfin : -(k:ℤ) * 9000000 = t := by omega
      rw [hfin]
    · have hk48 : k ≤ 48 := by omega
      rw [hform, priceToTick_neg_general k r hk48 hrpos (by omega)]
      have hfin : -(k:ℤ) * 9000000 - r = t := by omega
      rw [hfin]
  · norm_num [tickToPrice, priceToTick]
  · have habs : (t.natAbs : ℤ) = t := by omega
    set k : Nat := t.natAbs / 9000000 with hkdef
    set r : Int := t - (k:ℤ) * 9000000 with hrdef
    have hdm := Nat.div_add_mod t.natAbs 9000000
    have hmod : t.natAbs % 9000000 < 9000000 := Nat.mod_lt _ (by norm_num)
    have hkeq : (9000000:ℤ) * (k:ℤ) + ((t.natAbs % 9000000 : ℕ):ℤ) = t := by
      rw [← habs]
      exact_mod_cast hdm
    have hr0 : 0 ≤ r := by omega
    have hr1 : r < 9000000 := by omega
    have hform : tickToPrice t = (10:ℚ) ^ (k:ℤ) + (r:ℚ) * 10 ^ ((k:ℤ) - 6) := by
      simp only [tickToPrice]
      rw [← hkdef, if_pos (by omega : t > 0)]
      have hexp : (-6 : ℤ) + (k:ℤ) = (k:ℤ) - 6 := by ring
      rw [hexp]
      have hcoef : (t:ℚ) - ((k:ℕ):ℚ) * 9000000 = ((r:ℤ):ℚ) := by
        rw [hrdef]
        push_cast
        ring
      rw [hcoef]
    rcases eq_or_lt_of_le hr0 with hr00 | hrpos
    · have hk1 : 1 ≤ k := by omega
      have hk49 : k ≤ 49 := by omega
      have hform2 : tickToPrice t = (10:ℚ) ^ (k:ℤ) := by
        rw [hform, ← hr00]
        push_cast
        ring
      rw [hform2, priceToTick_pos_exact k hk1 hk49]
      have hfin : (k:ℤ) * 9000000 = t := by omega
      rw [hfin]
    · have hk48 : k ≤ 48 := by omega
      rw [hform, priceToTick_pos_general k r hk48 hrpos (by omega)]
      have hfin : (k:ℤ) * 9000000 + r = t := by omega
      rw [hfin]

/-- Witness for the amended C7 at t = 3000000. -/
theorem c7_witness : priceToTick (tickToPrice 3000000) = .ok 3000000 :=
  c7_roundtrip_in_range 3000000 (by norm_num) (by norm_num)
